import Mathlib

/-
Shallow embedding of the scan orchestration and caching core of the
rectifex-global-screener repository, and theorems checking its
natural-language specification against the code.

Embedded source files:
  core/runners.py   (ScanRunner: start/stop, _run_scan, _load_price_data,
                     _emit_progress, _resolve_scenario, _normalise_symbols)
  core/cache.py     (Cache.get / Cache.set / _sanitize_symbol /
                     _restore_index_frequency)
  core/data/fetcher.py (Fetcher.fetch_single / fetch_batch /
                     _download_chunk / _split_batch_result /
                     _prepare_frame / _execute_with_retries / _chunked)

Modelling conventions:
* Python strings are lists of Unicode code points (`PyStr`); `str.upper()`
  is modelled on the ASCII range, `str.strip()` strips the whitespace
  code points 32, 9, 10, 13.
* pandas DataFrames are modelled as a list of rows (index value paired
  with optional cell values, a missing cell being `none`), plus the
  timezone attached to the datetime index (`none` = naive) and the
  `freq` metadata of the index.  `df.attrs` (the symbol tag the runner
  copies onto frames) is presentation metadata that never influences
  emptiness, values or index, and is not modelled; the symbol is instead
  passed explicitly where scenario code could read it.
* External collaborators (yfinance transport, pandas `infer_freq`, the
  fundamentals provider, scenario `evaluate` bodies, UI callbacks) are
  parameters of the embedded functions.
* Thread scheduling is made explicit: the completion order of the worker
  pool is a parameter (a permutation of the submitted symbols), and the
  moments at which the shared cancellation event is observed are given
  by boolean schedules.
* Wall-clock durations and log output are not modelled.
-/

namespace Rectifex

/-! ### Python strings -/

/-- A Python string, modelled as its list of Unicode code points. -/
abbrev PyStr := List Nat

/-- The whitespace test used by `str.strip()` (space, tab, LF, CR). -/
def isSpaceCp (c : Nat) : Bool := decide (c = 32 ∨ c = 9 ∨ c = 10 ∨ c = 13)

/-- `str.upper()` on a single code point (ASCII letters a-z map to A-Z). -/
def upperCp (c : Nat) : Nat := if 97 ≤ c ∧ c ≤ 122 then c - 32 else c

/-- `s.upper()`. -/
def pyUpper (s : PyStr) : PyStr := s.map upperCp

/-- `s.strip()`: drop leading whitespace, then trailing whitespace. -/
def pyStrip (s : PyStr) : PyStr :=
  ((s.dropWhile isSpaceCp).reverse.dropWhile isSpaceCp).reverse

/-- The key `symbol.strip().upper()` computed per symbol by
`ScanRunner._normalise_symbols`. -/
def symKey (s : PyStr) : PyStr := pyUpper (pyStrip s)

/-- The loop body of `ScanRunner._normalise_symbols`: `seen` is the set of
keys already emitted (modelled as a list with membership), and the
returned list is the deduplicated output in emission order. -/
def normAux (seen : List PyStr) : List PyStr → List PyStr
  | [] => []
  | s :: rest =>
    let key := symKey s
    if key = [] ∨ key ∈ seen then normAux seen rest
    else key :: normAux (key :: seen) rest

/-- `ScanRunner._normalise_symbols`. -/
def normaliseSymbols (symbols : List PyStr) : List PyStr := normAux [] symbols

/-- Specification-side restatement of normalization ("trim + uppercase +
dedupe, preserving first-seen order; empty keys dropped"), used to state
the order-preservation part of the normalization claim: the first
occurrence of each nonempty key is kept in place and the later
occurrences are filtered out. -/
def normaliseSymbolsSpec : List PyStr → List PyStr
  | [] => []
  | s :: rest =>
    let key := symKey s
    if key = [] then normaliseSymbolsSpec rest
    else key :: (normaliseSymbolsSpec rest).filter (fun y => y ≠ key)

/-! ### Lemmas about strip / upper -/

theorem upperCp_idem (c : Nat) : upperCp (upperCp c) = upperCp c := by
  unfold upperCp
  split
  · rename_i h
    have hn : ¬ (97 ≤ c - 32 ∧ c - 32 ≤ 122) := by omega
    rw [if_neg hn]
  · rfl

theorem isSpaceCp_upperCp (c : Nat) : isSpaceCp (upperCp c) = isSpaceCp c := by
  unfold upperCp isSpaceCp
  split
  · rename_i h
    rw [decide_eq_decide]
    omega
  · rfl

theorem pyUpper_idem (s : PyStr) : pyUpper (pyUpper s) = pyUpper s := by
  unfold pyUpper
  rw [List.map_map]
  exact List.map_congr_left (fun c _ => upperCp_idem c)

theorem head?_dropWhile_false {α : Type} {p : α → Bool} :
    ∀ (l : List α) (a : α), (l.dropWhile p).head? = some a → p a = false := by
  intro l
  induction l with
  | nil => intro a h; simp [List.dropWhile] at h
  | cons x xs ih =>
    intro a h
    rw [List.dropWhile_cons] at h
    by_cases hx : p x = true
    · exact ih a (by simpa [hx] using h)
    · simp at hx
      simp [hx] at h
      subst h
      exact hx

theorem dropWhile_eq_self_of_head {α : Type} {p : α → Bool} {l : List α}
    (h : ∀ a, l.head? = some a → p a = false) : l.dropWhile p = l := by
  cases l with
  | nil => rfl
  | cons x xs =>
    rw [List.dropWhile_cons]
    simp [h x rfl]

/-- Nonempty suffixes share the last element. -/
theorem getLast?_of_suffix {α : Type} {l₁ l₂ : List α}
    (h : l₁ <:+ l₂) (hne : l₁ ≠ []) : l₁.getLast? = l₂.getLast? := by
  obtain ⟨t, rfl⟩ := h
  rw [List.getLast?_append]
  cases hl : l₁.getLast? with
  | none => exact absurd (List.getLast?_eq_none_iff.mp hl) hne
  | some a => rfl

/-- The head of a stripped string is not whitespace. -/
theorem pyStrip_head (s : PyStr) :
    ∀ a, (pyStrip s).head? = some a → isSpaceCp a = false := by
  intro a h
  unfold pyStrip at h
  rw [List.head?_reverse] at h
  set u := s.dropWhile isSpaceCp with hu
  set v := u.reverse.dropWhile isSpaceCp with hv
  -- `(pyStrip s).head? = v.getLast?`; if `v ≠ []`, this equals
  -- `u.reverse.getLast? = u.head?`, which the left strip cleaned.
  have hvne : v ≠ [] := by
    intro hnil
    rw [hnil] at h
    simp at h
  have : v.getLast? = u.reverse.getLast? :=
    getLast?_of_suffix (List.dropWhile_suffix _) hvne
  rw [this, List.getLast?_reverse] at h
  rw [hu] at h
  exact head?_dropWhile_false s a h

/-- The last element of a stripped string is not whitespace. -/
theorem pyStrip_getLast (s : PyStr) :
    ∀ a, (pyStrip s).getLast? = some a → isSpaceCp a = false := by
  intro a h
  unfold pyStrip at h
  rw [List.getLast?_reverse] at h
  exact head?_dropWhile_false _ a h

/-- Strings with non-whitespace ends are fixed by `strip()`. -/
theorem pyStrip_eq_self {l : PyStr}
    (h1 : ∀ a, l.head? = some a → isSpaceCp a = false)
    (h2 : ∀ a, l.getLast? = some a → isSpaceCp a = false) :
    pyStrip l = l := by
  unfold pyStrip
  rw [dropWhile_eq_self_of_head h1]
  rw [dropWhile_eq_self_of_head (by intro a ha; rw [List.head?_reverse] at ha; exact h2 a ha)]
  exact List.reverse_reverse l

theorem pyStrip_idem (s : PyStr) : pyStrip (pyStrip s) = pyStrip s :=
  pyStrip_eq_self (pyStrip_head s) (pyStrip_getLast s)

/-- `strip` commutes with `upper` (uppercasing preserves whitespace-ness). -/
theorem pyStrip_pyUpper (s : PyStr) : pyStrip (pyUpper s) = pyUpper (pyStrip s) := by
  unfold pyStrip pyUpper
  have hcomp : isSpaceCp ∘ upperCp = isSpaceCp := by
    funext c
    exact isSpaceCp_upperCp c
  rw [List.dropWhile_map, hcomp, ← List.map_reverse, List.dropWhile_map, hcomp,
    ← List.map_reverse]

theorem symKey_idem (s : PyStr) : symKey (symKey s) = symKey s := by
  unfold symKey
  rw [pyStrip_pyUpper, pyStrip_idem, pyUpper_idem]

/-! ### Lemmas about `_normalise_symbols` -/

theorem mem_normAux {seen : List PyStr} {l : List PyStr} {k : PyStr}
    (h : k ∈ normAux seen l) : symKey k = k ∧ k ≠ [] ∧ k ∉ seen := by
  induction l generalizing seen with
  | nil => simp [normAux] at h
  | cons s rest ih =>
    rw [normAux] at h
    split at h
    · exact ih h
    · rename_i hcond
      push_neg at hcond
      rcases List.mem_cons.mp h with h1 | h2
      · subst h1
        exact ⟨symKey_idem s, hcond.1, hcond.2⟩
      · have := ih h2
        refine ⟨this.1, this.2.1, ?_⟩
        intro hmem
        exact this.2.2 (List.mem_cons_of_mem _ hmem)

theorem nodup_normAux (seen : List PyStr) (l : List PyStr) :
    (normAux seen l).Nodup := by
  induction l generalizing seen with
  | nil => simp [normAux]
  | cons s rest ih =>
    rw [normAux]
    split
    · exact ih seen
    · refine List.nodup_cons.mpr ⟨?_, ih _⟩
      intro hmem
      exact (mem_normAux hmem).2.2 (List.mem_cons_self _ _)

/-- Running the normalization loop over an already-normalized list (canonical
nonempty keys, no duplicates, nothing already seen) returns it unchanged. -/
theorem normAux_fixed {l : List PyStr}
    (hcanon : ∀ k ∈ l, symKey k = k ∧ k ≠ []) (hnd : l.Nodup) :
    ∀ seen, (∀ k ∈ l, k ∉ seen) → normAux seen l = l := by
  induction l with
  | nil => intro seen _; rfl
  | cons x rest ih =>
    intro seen hseen
    obtain ⟨hx, hxe⟩ := hcanon x (List.mem_cons_self _ _)
    have hxseen : x ∉ seen := hseen x (List.mem_cons_self _ _)
    rw [normAux]
    have hcond : ¬ (symKey x = [] ∨ symKey x ∈ seen) := by
      rw [hx]
      push_neg
      exact ⟨hxe, hxseen⟩
    rw [if_neg hcond, hx]
    congr 1
    refine ih (fun k hk => hcanon k (List.mem_cons_of_mem _ hk))
      (List.Nodup.of_cons hnd) (x :: seen) ?_
    intro k hk
    rw [List.mem_cons]
    push_neg
    constructor
    · intro hkx
      subst hkx
      exact (List.nodup_cons.mp hnd).1 hk
    · exact hseen k (List.mem_cons_of_mem _ hk)

theorem normAux_eq_spec_filter (l : List PyStr) :
    ∀ seen, normAux seen l =
      (normaliseSymbolsSpec l).filter (fun y => y ∉ seen) := by
  induction l with
  | nil => intro seen; rfl
  | cons s rest ih =>
    intro seen
    rw [normAux, normaliseSymbolsSpec]
    by_cases hk : symKey s = []
    · rw [if_pos (Or.inl hk), if_pos hk]
      exact ih seen
    · by_cases hseen : symKey s ∈ seen
      · rw [if_pos (Or.inr hseen), if_neg hk, ih seen, List.filter_cons]
        rw [if_neg (by simp [hseen])]
        rw [List.filter_filter]
        refine List.filter_congr ?_
        intro y _
        by_cases hy : y = symKey s
        · subst hy
          simp [hseen]
        · simp [hy]
      · rw [if_neg (by push_neg; exact ⟨hk, hseen⟩), if_neg hk, List.filter_cons]
        rw [if_pos (by simp [hseen])]
        rw [ih (symKey s :: seen), List.filter_filter]
        congr 1
        refine List.filter_congr ?_
        intro y _
        by_cases hy : y = symKey s
        · subst hy
          simp
        · simp [hy, List.mem_cons]

theorem normaliseSymbols_eq_spec (l : List PyStr) :
    normaliseSymbols l = normaliseSymbolsSpec l := by
  rw [normaliseSymbols, normAux_eq_spec_filter l []]
  exact List.filter_eq_self.mpr (fun a _ => by simp)

theorem normaliseSymbols_idem (xs : List PyStr) :
    normaliseSymbols (normaliseSymbols xs) = normaliseSymbols xs := by
  unfold normaliseSymbols
  refine normAux_fixed ?_ (nodup_normAux [] xs) [] ?_
  · intro k hk
    exact ⟨(mem_normAux hk).1, (mem_normAux hk).2.1⟩
  · intro k _
    exact List.not_mem_nil k

/-- **C5.** Symbol normalization is idempotent; its output has no
duplicates; every entry is a trimmed, uppercased, nonempty key; and the
output keeps the first occurrence of each key in first-seen order
(`normaliseSymbolsSpec` restates the spec's order clause). -/
theorem normalisation_properties (xs : List PyStr) :
    normaliseSymbols (normaliseSymbols xs) = normaliseSymbols xs ∧
    (normaliseSymbols xs).Nodup ∧
    (∀ k ∈ normaliseSymbols xs,
      k = pyUpper (pyStrip k) ∧ k = symKey k ∧ k ≠ []) ∧
    normaliseSymbols xs = normaliseSymbolsSpec xs := by
  refine ⟨normaliseSymbols_idem xs, nodup_normAux [] xs, ?_, normaliseSymbols_eq_spec xs⟩
  intro k hk
  have h := mem_normAux hk
  exact ⟨(h.1).symm, (h.1).symm, h.2.1⟩

/-- Witness for the normalization claim at a concrete mixed-case input:
`["aapl", " AAPL ", "msft"]` normalizes to `["AAPL", "MSFT"]`. -/
theorem normalisation_properties_witness :
    normaliseSymbols [[97, 97, 112, 108], [32, 65, 65, 80, 76, 32], [109, 115, 102, 116]] =
      [[65, 65, 80, 76], [77, 83, 70, 84]] ∧
    (normaliseSymbols (normaliseSymbols [[97, 97, 112, 108], [32, 65, 65, 80, 76, 32], [109, 115, 102, 116]]) =
      normaliseSymbols [[97, 97, 112, 108], [32, 65, 65, 80, 76, 32], [109, 115, 102, 116]]) :=
  ⟨by decide, (normalisation_properties _).1⟩

/-! ### pandas price frames -/

/-- A pandas price DataFrame: `rows` pairs each datetime-index value
(an integer timestamp) with the row's cell values (`none` = NaN).
`tz` is the timezone attached to the datetime index (`none` = naive);
`freq` is the index frequency metadata.  Converting a tz-aware index to
naive (`tz_convert(None)`) keeps the underlying timestamps, so it only
clears `tz`.  The `attrs` symbol tag is not modelled (see header). -/
structure DataFrame where
  rows : List (Int × List (Option Int))
  tz : Option Int := none
  freq : Option Nat := none
deriving DecidableEq, Repr

/-- `df.empty`. -/
def DataFrame.isEmpty (df : DataFrame) : Bool := df.rows.isEmpty

/-- A row is dropped by `dropna(how="all")` iff every cell is missing. -/
def rowAllMissing (cells : List (Option Int)) : Bool := cells.all (fun c => c.isNone)

/-- Boolean "index sorted ascending". -/
def sortedByIdx : List (Int × List (Option Int)) → Bool
  | [] => true
  | [_] => true
  | a :: b :: t => decide (a.1 ≤ b.1) && sortedByIdx (b :: t)

/-- The ascending-index ordering used by `sort_index`. -/
def idxLe (a b : Int × List (Option Int)) : Prop := a.1 ≤ b.1

instance : DecidableRel idxLe := fun a b => by unfold idxLe; infer_instance

/-- `Fetcher._prepare_frame`: drop all-missing rows, drop timezone
information from the index, sort by index ascending (`sort_index` is a
stable sort; insertion sort is stable).  The `freq` metadata is carried
through unchanged; it never affects row data or emptiness. -/
def prepareFrame (df : DataFrame) : DataFrame :=
  { rows := List.insertionSort idxLe (df.rows.filter (fun r => !rowAllMissing r.2)),
    tz := none,
    freq := df.freq }

/-! ### Fetcher (core/data/fetcher.py) -/

/-- Outcome of `Fetcher._execute_with_retries`: the operation succeeded;
or every attempt failed and the final attempt's exception is re-raised;
or (`max_retries == 0`, loop body never ran) the defensive
`RuntimeError` is raised. -/
inductive RetryOutcome (ε α : Type) where
  | success (value : α)
  | failed (exc : ε)
  | noAttempt
deriving DecidableEq, Repr

/-- The retry loop of `Fetcher._execute_with_retries`.  `op n` is the
transport call on (1-based) attempt `n`; `remaining` counts the attempts
the `for attempt in range(1, max_retries + 1)` loop may still make, so
`remaining = 1` means the current attempt is the last one (the loop
breaks instead of sleeping).  The result also carries the list of
backoff sleeps performed and the number of attempts made. -/
def retryAux (op : Nat → Except ε α) (factor : ℚ) :
    Nat → Nat → ℚ → List ℚ → RetryOutcome ε α × List ℚ × Nat
  | attempt, 0, _, sleeps => (.noAttempt, sleeps, attempt - 1)
  | attempt, remaining + 1, delay, sleeps =>
    match op attempt with
    | .ok v => (.success v, sleeps, attempt)
    | .error e =>
      if remaining = 0 then (.failed e, sleeps, attempt)
      else retryAux op factor (attempt + 1) remaining (delay * factor) (sleeps ++ [delay])

/-- `Fetcher._execute_with_retries` with `max_retries`, initial backoff
`d0` and `backoff_factor` `factor`. -/
def executeWithRetries (op : Nat → Except ε α) (maxRetries : Nat) (d0 factor : ℚ) :
    RetryOutcome ε α × List ℚ × Nat :=
  retryAux op factor 1 maxRetries d0 []

/-- `Fetcher.fetch_single`: run the ticker-history transport under the
retry helper; every exception escaping it (the re-raised final failure
as well as the defensive `RuntimeError`) is caught and `None` returned;
empty frames become `None`; non-empty frames are prepared. -/
def fetchSingle (op : Nat → Except ε DataFrame) (maxRetries : Nat) (d0 factor : ℚ) :
    Option DataFrame :=
  match (executeWithRetries op maxRetries d0 factor).1 with
  | .success df => if df.isEmpty then none else some (prepareFrame df)
  | .failed _ => none
  | .noAttempt => none

/-- The frame returned by one `yf.download` batch call.  With several
tickers the columns are a MultiIndex keyed by symbol: `xs(symbol)`
selects that symbol's sub-frame or raises `KeyError` (modelled by the
association-list lookup).  With a flat column index the whole frame
belongs to the first requested symbol.  All sub-frames share the batch
frame's index, so the batch frame is empty exactly when each sub-frame
is. -/
inductive BatchDF where
  | multi (frames : List (PyStr × DataFrame))
  | flat (df : DataFrame)
deriving DecidableEq, Repr

def BatchDF.isEmptyB : BatchDF → Bool
  | .multi frames => frames.all (fun p => p.2.isEmpty)
  | .flat df => df.isEmpty

/-- `Fetcher._download_chunk`: batch download under the retry helper,
every escaping exception caught and `None` returned. -/
def downloadChunk (op : Nat → Except ε BatchDF) (maxRetries : Nat) (d0 factor : ℚ) :
    Option BatchDF :=
  match (executeWithRetries op maxRetries d0 factor).1 with
  | .success b => some b
  | .failed _ => none
  | .noAttempt => none

/-- Python `dict` assignment `m[k] = v`: overwrite in place if the key
exists, else append (Python dicts keep the original insertion slot). -/
def dictUpsert {K V : Type} [DecidableEq K] : List (K × V) → K → V → List (K × V)
  | [], k, v => [(k, v)]
  | (k0, v0) :: rest, k, v =>
    if k0 = k then (k0, v) :: rest else (k0, v0) :: dictUpsert rest k v

/-- `{k: v for k in keys}`. -/
def dictInit {K V : Type} [DecidableEq K] (keys : List K) (v : V) : List (K × V) :=
  keys.foldl (fun m k => dictUpsert m k v) []

/-- `Fetcher._split_batch_result`. -/
def splitBatchResult (chunk : List PyStr) (batch : Option BatchDF) :
    List (PyStr × Option DataFrame) :=
  let init := dictInit chunk (none : Option DataFrame)
  match batch with
  | none => init
  | some b =>
    if b.isEmptyB then init
    else
      match b with
      | .multi frames =>
        -- `xs(symbol)` hit prepares the sub-frame; `KeyError` stores `None`.
        chunk.foldl (fun m s =>
          dictUpsert m s ((frames.lookup s).map prepareFrame)) init
      | .flat df =>
        match chunk with
        | [] => init            -- unreachable: `_chunked` yields nonempty chunks
        | s :: _ => dictUpsert init s (some (prepareFrame df))

/-- `_chunked` with explicit fuel (structural recursion); with
`fuel ≥ items.length` and a positive chunk size it yields the
consecutive chunks of `items`. -/
def chunkedAux (chunkSize : Nat) : Nat → List PyStr → List (List PyStr)
  | 0, _ => []
  | _ + 1, [] => []
  | fuel + 1, items =>
    items.take chunkSize :: chunkedAux chunkSize fuel (items.drop chunkSize)

/-- `_chunked(items, chunk_size)`; the code raises `ValueError` for a
non-positive size, so the model is only meaningful for positive sizes. -/
def chunked (chunkSize : Nat) (items : List PyStr) : List (List PyStr) :=
  chunkedAux chunkSize items.length items

/-- `frames.get(symbol)`: the stored slot, or `None` for a missing key. -/
def slotValue (frames : List (PyStr × Option DataFrame)) (s : PyStr) :
    Option DataFrame :=
  match frames.lookup s with
  | some v => v
  | none => none

/-- The `fetch_batch` fallback: when the batch slot is `None` or empty,
retry the symbol with `fetch_single`. -/
def fallbackSingle (df0 : Option DataFrame)
    (op : Nat → Except ε DataFrame) (maxRetries : Nat) (d0 factor : ℚ) :
    Option DataFrame :=
  match df0 with
  | some d => if d.isEmpty then fetchSingle op maxRetries d0 factor else some d
  | none => fetchSingle op maxRetries d0 factor

/-- The final `fetch_batch` guard:
`results[symbol] = df if df is not None and not df.empty else None`. -/
def storeGuard (df1 : Option DataFrame) : Option DataFrame :=
  match df1 with
  | some d => if d.isEmpty then none else some d
  | none => none

/-- The per-symbol body of the `fetch_batch` loop. -/
def resolveSymbolValue (frames : List (PyStr × Option DataFrame))
    (singleOp : PyStr → Nat → Except ε DataFrame)
    (maxRetries : Nat) (d0 factor : ℚ) (s : PyStr) : Option DataFrame :=
  storeGuard (fallbackSingle (slotValue frames s) (singleOp s) maxRetries d0 factor)

/-- `Fetcher.fetch_batch`.  `chunkOp chunk n` is the batch-download
transport for a chunk on attempt `n`; `singleOp s n` is the per-symbol
ticker-history transport used by the fallback `fetch_single`. -/
def fetchBatch (chunkOp : List PyStr → Nat → Except ε BatchDF)
    (singleOp : PyStr → Nat → Except ε DataFrame)
    (symbols : List PyStr) (chunkSize maxRetries : Nat) (d0 factor : ℚ) :
    List (PyStr × Option DataFrame) :=
  let init := dictInit symbols (none : Option DataFrame)
  (chunked chunkSize symbols).foldl (fun results chunk =>
    let frames := splitBatchResult chunk
      (downloadChunk (chunkOp chunk) maxRetries d0 factor)
    chunk.foldl (fun res s =>
      dictUpsert res s (resolveSymbolValue frames singleOp maxRetries d0 factor s))
      results) init

/-! ### Retry lemmas (C8) -/

theorem retryAux_attempts {ε α : Type} (op : Nat → Except ε α) (factor : ℚ) :
    ∀ (r a : Nat) (d : ℚ) (s : List ℚ),
      (retryAux op factor a r d s).2.2 ≤ a - 1 + r := by
  intro r
  induction r with
  | zero => intro a d s; simp [retryAux]
  | succ r ih =>
    intro a d s
    rw [retryAux]
    cases op a with
    | ok v => simp; omega
    | error e =>
      simp only
      split
      · simp; omega
      · calc (retryAux op factor (a + 1) r (d * factor) (s ++ [d])).2.2
            ≤ (a + 1) - 1 + r := ih (a + 1) (d * factor) (s ++ [d])
          _ ≤ a - 1 + (r + 1) := by omega

theorem retryAux_sleeps {ε α : Type} (op : Nat → Except ε α) (factor : ℚ) :
    ∀ (r a : Nat) (d : ℚ) (s : List ℚ), ∃ n,
      (retryAux op factor a r d s).2.1 =
        s ++ (List.range n).map (fun i => d * factor ^ i) := by
  intro r
  induction r with
  | zero => intro a d s; exact ⟨0, by simp [retryAux]⟩
  | succ r ih =>
    intro a d s
    rw [retryAux]
    cases op a with
    | ok v => exact ⟨0, by simp⟩
    | error e =>
      simp only
      split
      · exact ⟨0, by simp⟩
      · obtain ⟨n, hn⟩ := ih (a + 1) (d * factor) (s ++ [d])
        refine ⟨n + 1, ?_⟩
        rw [hn, List.range_succ_eq_map]
        simp only [List.map_cons, List.map_map, pow_zero, mul_one]
        have hmap : List.map ((fun i => d * factor ^ i) ∘ Nat.succ) (List.range n)
            = List.map (fun i => d * factor * factor ^ i) (List.range n) :=
          List.map_congr_left (fun i _ => by
            simp only [Function.comp_apply]
            rw [pow_succ]
            ring)
        rw [hmap, List.append_assoc, List.singleton_append]

theorem retryAux_all_error {ε α : Type} {op : Nat → Except ε α} {factor : ℚ}
    (hop : ∀ n, ∃ e, op n = Except.error e) :
    ∀ (r a : Nat) (d : ℚ) (s : List ℚ) (v : α),
      (retryAux op factor a r d s).1 ≠ RetryOutcome.success v := by
  intro r
  induction r with
  | zero => intro a d s v; simp [retryAux]
  | succ r ih =>
    intro a d s v
    obtain ⟨e, he⟩ := hop a
    rw [retryAux, he]
    simp only
    split
    · simp
    · exact ih (a + 1) (d * factor) (s ++ [d]) v

theorem fetchSingle_all_error {ε : Type} {op : Nat → Except ε DataFrame}
    {maxRetries : Nat} {d0 factor : ℚ}
    (hop : ∀ n, ∃ e, op n = Except.error e) :
    fetchSingle op maxRetries d0 factor = none := by
  unfold fetchSingle
  cases hv : (executeWithRetries op maxRetries d0 factor).1 with
  | success df =>
    exact absurd hv (retryAux_all_error hop maxRetries 1 d0 [] df)
  | failed e => rfl
  | noAttempt => rfl

theorem downloadChunk_all_error {ε : Type} {op : Nat → Except ε BatchDF}
    {maxRetries : Nat} {d0 factor : ℚ}
    (hop : ∀ n, ∃ e, op n = Except.error e) :
    downloadChunk op maxRetries d0 factor = none := by
  unfold downloadChunk
  cases hv : (executeWithRetries op maxRetries d0 factor).1 with
  | success b =>
    exact absurd hv (retryAux_all_error hop maxRetries 1 d0 [] b)
  | failed e => rfl
  | noAttempt => rfl

/-- **C8 (amended).** The retry helper makes at most `max_retries`
attempts and sleeps an exponentially growing backoff
(`d0 * factor ^ i`) between consecutive attempts.  After exhausting the
retries both `fetch_single` and `_download_chunk` return absent — even
when the transport raised on the final attempt: the exception re-raised
by the retry helper is caught inside `fetch_single`/`_download_chunk`
themselves and never propagates to their callers. -/
theorem fetch_retry_behaviour {ε α : Type}
    (op : Nat → Except ε α) (opd : Nat → Except ε DataFrame)
    (opb : Nat → Except ε BatchDF) (maxRetries : Nat) (d0 factor : ℚ) :
    (executeWithRetries op maxRetries d0 factor).2.2 ≤ maxRetries ∧
    (∃ n, (executeWithRetries op maxRetries d0 factor).2.1 =
      (List.range n).map (fun i => d0 * factor ^ i)) ∧
    ((∀ n, ∃ e, opd n = Except.error e) →
      fetchSingle opd maxRetries d0 factor = none) ∧
    ((∀ n, ∃ e, opb n = Except.error e) →
      downloadChunk opb maxRetries d0 factor = none) := by
  refine ⟨?_, ?_, fetchSingle_all_error, downloadChunk_all_error⟩
  · have := retryAux_attempts op factor maxRetries 1 d0 []
    simpa [executeWithRetries] using this
  · obtain ⟨n, hn⟩ := retryAux_sleeps op factor maxRetries 1 d0 []
    exact ⟨n, by simpa [executeWithRetries] using hn⟩

/-- Witness for the amended retry claim at `max_retries = 3`,
`d0 = 1`, `factor = 2`, with a transport that fails on every attempt. -/
theorem fetch_retry_behaviour_witness :
    fetchSingle (fun _ => (Except.error () : Except Unit DataFrame)) 3 1 2 = none ∧
    downloadChunk (fun _ => (Except.error () : Except Unit BatchDF)) 3 1 2 = none ∧
    (executeWithRetries (fun _ => (Except.error () : Except Unit Unit)) 3 1 2).2.2 ≤ 3 :=
  ⟨(fetch_retry_behaviour (fun _ => (Except.error () : Except Unit Unit))
      (fun _ => Except.error ()) (fun _ => Except.error ()) 3 1 2).2.2.1
      (fun _ => ⟨(), rfl⟩),
   (fetch_retry_behaviour (fun _ => (Except.error () : Except Unit Unit))
      (fun _ => Except.error ()) (fun _ => Except.error ()) 3 1 2).2.2.2
      (fun _ => ⟨(), rfl⟩),
   (fetch_retry_behaviour (fun _ => (Except.error () : Except Unit Unit))
      (fun _ => Except.error ()) (fun _ => Except.error ()) 3 1 2).1⟩

/-- **C8 (counterexample).** With a transport failing on all of the 3
attempts, the internal retry helper ends by re-raising the final
attempt's exception (`RetryOutcome.failed`), but `fetch_single` and
`_download_chunk` both return `None`: the final-attempt exception does
NOT propagate to their callers, contrary to the claim. -/
theorem fetch_retry_no_propagation :
    (executeWithRetries (fun _ => Except.error ()) 3 1 2 :
      RetryOutcome Unit DataFrame × List ℚ × Nat).1 = RetryOutcome.failed () ∧
    (executeWithRetries (fun _ => Except.error ()) 3 1 2 :
      RetryOutcome Unit DataFrame × List ℚ × Nat).2.1 = [1, 2] ∧
    (executeWithRetries (fun _ => Except.error ()) 3 1 2 :
      RetryOutcome Unit DataFrame × List ℚ × Nat).2.2 = 3 ∧
    fetchSingle (fun _ => Except.error () : Nat → Except Unit DataFrame) 3 1 2 = none ∧
    downloadChunk (fun _ => Except.error () : Nat → Except Unit BatchDF) 3 1 2 = none := by
  refine ⟨rfl, ?_, rfl, rfl, rfl⟩
  show ([] : List ℚ) ++ [1] ++ [1 * 2] = [1, 2]
  norm_num

/-! ### Dict, chunking and preparation lemmas (C9) -/

theorem mem_dictUpsert {K V : Type} [DecidableEq K] :
    ∀ (m : List (K × V)) (k : K) (v : V) (p : K × V),
      p ∈ dictUpsert m k v → p = (k, v) ∨ p ∈ m := by
  intro m
  induction m with
  | nil =>
    intro k v p hp
    rw [dictUpsert] at hp
    exact Or.inl (List.mem_singleton.mp hp)
  | cons q rest ih =>
    intro k v p hp
    obtain ⟨k0, v0⟩ := q
    rw [dictUpsert] at hp
    split at hp
    · rename_i hk
      rcases List.mem_cons.mp hp with h | h
      · subst hk
        exact Or.inl h
      · exact Or.inr (List.mem_cons_of_mem _ h)
    · rcases List.mem_cons.mp hp with h | h
      · exact Or.inr (h ▸ List.mem_cons_self _ _)
      · rcases ih k v p h with h1 | h1
        · exact Or.inl h1
        · exact Or.inr (List.mem_cons_of_mem _ h1)

theorem keys_dictUpsert {K V : Type} [DecidableEq K] :
    ∀ (m : List (K × V)) (k : K) (v : V) (x : K),
      (x ∈ (dictUpsert m k v).map Prod.fst ↔ x = k ∨ x ∈ m.map Prod.fst) := by
  intro m
  induction m with
  | nil =>
    intro k v x
    simp [dictUpsert]
  | cons q rest ih =>
    intro k v x
    obtain ⟨k0, v0⟩ := q
    rw [dictUpsert]
    split
    · rename_i hk
      subst hk
      simp
    · rename_i hk
      simp only [List.map_cons, List.mem_cons, ih]
      constructor
      · rintro (h | h | h)
        · exact Or.inr (Or.inl h)
        · exact Or.inl h
        · exact Or.inr (Or.inr h)
      · rintro (h | h | h)
        · exact Or.inr (Or.inl h)
        · exact Or.inl h
        · exact Or.inr (Or.inr h)

theorem foldl_upsert_values {K V : Type} [DecidableEq K] (P : V → Prop) (g : K → V)
    (hg : ∀ k, P (g k)) :
    ∀ (ks : List K) (m : List (K × V)), (∀ p ∈ m, P p.2) →
      ∀ p ∈ ks.foldl (fun acc k => dictUpsert acc k (g k)) m, P p.2 := by
  intro ks
  induction ks with
  | nil => intro m hm p hp; exact hm p hp
  | cons k ks ih =>
    intro m hm p hp
    rw [List.foldl_cons] at hp
    refine ih (dictUpsert m k (g k)) ?_ p hp
    intro q hq
    rcases mem_dictUpsert m k (g k) q hq with h | h
    · rw [h]
      exact hg k
    · exact hm q h

theorem foldl_upsert_keys {K V : Type} [DecidableEq K] (g : K → V) :
    ∀ (ks : List K) (m : List (K × V)) (x : K),
      (x ∈ (ks.foldl (fun acc k => dictUpsert acc k (g k)) m).map Prod.fst ↔
        x ∈ ks ∨ x ∈ m.map Prod.fst) := by
  intro ks
  induction ks with
  | nil => intro m x; simp
  | cons k ks ih =>
    intro m x
    rw [List.foldl_cons, ih, keys_dictUpsert]
    simp only [List.mem_cons]
    tauto

theorem dictInit_values {K V : Type} [DecidableEq K] (keys : List K) (v : V) :
    ∀ p ∈ dictInit keys v, p.2 = v := by
  intro p hp
  exact foldl_upsert_values (fun w => w = v) (fun _ => v) (fun _ => rfl)
    keys [] (by intro q hq; simp at hq) p hp

theorem dictInit_keys {K V : Type} [DecidableEq K] (keys : List K) (v : V) (x : K) :
    x ∈ (dictInit keys v).map Prod.fst ↔ x ∈ keys := by
  rw [dictInit, foldl_upsert_keys]
  simp

theorem lookup_some_mem {K V : Type} [BEq K] [LawfulBEq K] :
    ∀ (l : List (K × V)) (k : K) (v : V), l.lookup k = some v → (k, v) ∈ l := by
  intro l
  induction l with
  | nil => intro k v h; simp [List.lookup] at h
  | cons q rest ih =>
    intro k v h
    obtain ⟨k0, v0⟩ := q
    rw [List.lookup_cons] at h
    cases hk : (k == k0) with
    | true =>
      rw [hk] at h
      simp only at h
      have : v0 = v := by injection h
      subst this
      have : k = k0 := eq_of_beq hk
      subst this
      exact List.mem_cons_self _ _
    | false =>
      rw [hk] at h
      simp only at h
      exact List.mem_cons_of_mem _ (ih k v h)

theorem prepareFrame_rows (df : DataFrame) :
    ∀ r ∈ (prepareFrame df).rows, rowAllMissing r.2 = false := by
  intro r hr
  unfold prepareFrame at hr
  simp only at hr
  have hmem := (List.perm_insertionSort idxLe _).mem_iff.mp hr
  have := (List.mem_filter.mp hmem).2
  simpa using this

theorem pairwise_sortedByIdx :
    ∀ (l : List (Int × List (Option Int))),
      List.Pairwise (fun a b => decide (a.1 ≤ b.1) = true) l → sortedByIdx l = true
  | [], _ => rfl
  | [_], _ => rfl
  | x :: y :: t, h => by
    rw [sortedByIdx]
    have h1 := List.rel_of_pairwise_cons h (List.mem_cons_self y t)
    have h2 := List.Pairwise.of_cons h
    rw [h1, pairwise_sortedByIdx (y :: t) h2]
    rfl

theorem prepareFrame_sorted (df : DataFrame) :
    sortedByIdx (prepareFrame df).rows = true := by
  refine pairwise_sortedByIdx _ ?_
  haveI : IsTotal (Int × List (Option Int)) idxLe := ⟨fun a b => Int.le_total a.1 b.1⟩
  haveI : IsTrans (Int × List (Option Int)) idxLe :=
    ⟨fun a b c hab hbc => le_trans hab hbc⟩
  have hs := List.sorted_insertionSort idxLe
    (df.rows.filter (fun r => !rowAllMissing r.2))
  exact hs.imp (fun hab => by simpa [idxLe] using hab)

theorem prepareFrame_tz (df : DataFrame) : (prepareFrame df).tz = none := rfl

theorem fetchSingle_cases {ε : Type} (op : Nat → Except ε DataFrame)
    (maxRetries : Nat) (d0 factor : ℚ) :
    fetchSingle op maxRetries d0 factor = none ∨
      ∃ w, fetchSingle op maxRetries d0 factor = some (prepareFrame w) := by
  unfold fetchSingle
  cases (executeWithRetries op maxRetries d0 factor).1 with
  | success df =>
    by_cases h : df.isEmpty
    · exact Or.inl (by simp [h])
    · exact Or.inr ⟨df, by simp [h]⟩
  | failed e => exact Or.inl rfl
  | noAttempt => exact Or.inl rfl

theorem splitBatchResult_values (chunk : List PyStr) (batch : Option BatchDF) :
    ∀ p ∈ splitBatchResult chunk batch,
      p.2 = none ∨ ∃ w, p.2 = some (prepareFrame w) := by
  have hinit : ∀ p ∈ dictInit chunk (none : Option DataFrame),
      p.2 = none ∨ ∃ w, p.2 = some (prepareFrame w) :=
    fun p hp => Or.inl (dictInit_values chunk none p hp)
  unfold splitBatchResult
  cases batch with
  | none => exact hinit
  | some b =>
    simp only
    split
    · exact hinit
    · cases b with
      | multi frames =>
        simp only
        refine foldl_upsert_values
          (fun v => v = none ∨ ∃ w, v = some (prepareFrame w))
          (fun s => (frames.lookup s).map prepareFrame) ?_ chunk _ hinit
        intro s
        cases h : frames.lookup s with
        | none => exact Or.inl (by simp [h])
        | some w => exact Or.inr ⟨w, by simp [h]⟩
      | flat df =>
        simp only
        cases chunk with
        | nil => exact hinit
        | cons s rest =>
          intro p hp
          rcases mem_dictUpsert _ s (some (prepareFrame df)) p hp with h | h
          · exact Or.inr ⟨df, by rw [h]⟩
          · exact hinit p h

theorem storeGuard_good {df1 : Option DataFrame}
    (h : df1 = none ∨ ∃ w, df1 = some (prepareFrame w)) :
    storeGuard df1 = none ∨
      ∃ d, storeGuard df1 = some d ∧ d.isEmpty = false ∧
        ∃ w, d = prepareFrame w := by
  rcases h with h | ⟨w, h⟩
  · subst h
    exact Or.inl rfl
  · subst h
    by_cases he : (prepareFrame w).isEmpty
    · exact Or.inl (by simp [storeGuard, he])
    · exact Or.inr ⟨prepareFrame w, by simp [storeGuard, he],
        by simpa using he, w, rfl⟩

theorem fallbackSingle_cases {ε : Type} {df0 : Option DataFrame}
    (op : Nat → Except ε DataFrame) (maxRetries : Nat) (d0 factor : ℚ)
    (h : df0 = none ∨ ∃ w, df0 = some (prepareFrame w)) :
    fallbackSingle df0 op maxRetries d0 factor = none ∨
      ∃ w, fallbackSingle df0 op maxRetries d0 factor = some (prepareFrame w) := by
  have hsingle := fetchSingle_cases op maxRetries d0 factor
  rcases h with h | ⟨w, h⟩
  · subst h
    exact hsingle
  · subst h
    by_cases he : (prepareFrame w).isEmpty
    · simpa [fallbackSingle, he] using hsingle
    · exact Or.inr ⟨w, by simp [fallbackSingle, he]⟩

theorem slotValue_good (frames : List (PyStr × Option DataFrame)) (s : PyStr)
    (hframes : ∀ p ∈ frames, p.2 = none ∨ ∃ w, p.2 = some (prepareFrame w)) :
    slotValue frames s = none ∨ ∃ w, slotValue frames s = some (prepareFrame w) := by
  unfold slotValue
  cases hls : frames.lookup s with
  | none => exact Or.inl rfl
  | some v =>
    simpa using hframes (s, v) (lookup_some_mem frames s v hls)

theorem resolveSymbolValue_good {ε : Type}
    (frames : List (PyStr × Option DataFrame))
    (singleOp : PyStr → Nat → Except ε DataFrame)
    (maxRetries : Nat) (d0 factor : ℚ) (s : PyStr)
    (hframes : ∀ p ∈ frames, p.2 = none ∨ ∃ w, p.2 = some (prepareFrame w)) :
    resolveSymbolValue frames singleOp maxRetries d0 factor s = none ∨
      ∃ d, resolveSymbolValue frames singleOp maxRetries d0 factor s = some d ∧
        d.isEmpty = false ∧ ∃ w, d = prepareFrame w := by
  unfold resolveSymbolValue
  exact storeGuard_good (fallbackSingle_cases (singleOp s) maxRetries d0 factor
    (slotValue_good frames s hframes))

theorem chunkedAux_flatten (chunkSize : Nat) (hcs : 0 < chunkSize) :
    ∀ (fuel : Nat) (items : List PyStr), items.length ≤ fuel →
      (chunkedAux chunkSize fuel items).flatten = items := by
  intro fuel
  induction fuel with
  | zero =>
    intro items h
    have : items = [] := List.eq_nil_of_length_eq_zero (Nat.le_zero.mp h)
    subst this
    rfl
  | succ fuel ih =>
    intro items h
    cases items with
    | nil => rfl
    | cons a t =>
      have hlen : ((a :: t).drop chunkSize).length ≤ fuel := by
        rw [List.length_drop, List.length_cons]
        have : t.length + 1 ≤ fuel + 1 := by simpa using h
        omega
      show (((a :: t).take chunkSize ::
        chunkedAux chunkSize fuel ((a :: t).drop chunkSize))).flatten = a :: t
      rw [List.flatten_cons, ih ((a :: t).drop chunkSize) hlen]
      exact List.take_append_drop _ _

theorem chunked_flatten (chunkSize : Nat) (hcs : 0 < chunkSize) (items : List PyStr) :
    (chunked chunkSize items).flatten = items :=
  chunkedAux_flatten chunkSize hcs items.length items le_rfl

/-- **C9.** For every input symbol list and positive chunk size, and all
transport behaviours (including total download failure), `fetch_batch`
returns a mapping whose keys are exactly the input symbols; each value
is `None` or a non-empty frame that has been prepared: rows with all
fields missing dropped, timezone information removed, and index sorted
ascending. -/
theorem fetch_batch_contract {ε : Type}
    (chunkOp : List PyStr → Nat → Except ε BatchDF)
    (singleOp : PyStr → Nat → Except ε DataFrame)
    (symbols : List PyStr) (chunkSize maxRetries : Nat) (d0 factor : ℚ)
    (hcs : 0 < chunkSize) :
    (∀ x, x ∈ (fetchBatch chunkOp singleOp symbols chunkSize maxRetries d0
        factor).map Prod.fst ↔ x ∈ symbols) ∧
    (∀ p ∈ fetchBatch chunkOp singleOp symbols chunkSize maxRetries d0 factor,
      p.2 = none ∨ ∃ d, p.2 = some d ∧ d.isEmpty = false ∧
        (∀ r ∈ d.rows, rowAllMissing r.2 = false) ∧ d.tz = none ∧
        sortedByIdx d.rows = true) := by
  have hchunks : ∀ c ∈ chunked chunkSize symbols, ∀ s ∈ c, s ∈ symbols := by
    intro c hc s hs
    rw [← chunked_flatten chunkSize hcs symbols]
    exact List.mem_flatten.mpr ⟨c, hc, hs⟩
  constructor
  · -- key set
    rw [fetchBatch]
    have main : ∀ (L : List (List PyStr)) (m : List (PyStr × Option DataFrame)),
        (∀ c ∈ L, ∀ s ∈ c, s ∈ symbols) →
        (∀ x, x ∈ m.map Prod.fst ↔ x ∈ symbols) →
        ∀ x, x ∈ (L.foldl (fun results chunk =>
          chunk.foldl (fun res s =>
            dictUpsert res s (resolveSymbolValue
              (splitBatchResult chunk
                (downloadChunk (chunkOp chunk) maxRetries d0 factor))
              singleOp maxRetries d0 factor s)) results) m).map Prod.fst ↔
          x ∈ symbols := by
      intro L
      induction L with
      | nil => intro m _ hm x; exact hm x
      | cons c L ih =>
        intro m hL hm x
        rw [List.foldl_cons]
        refine ih _ (fun c2 hc2 => hL c2 (List.mem_cons_of_mem _ hc2)) ?_ x
        intro y
        rw [foldl_upsert_keys, hm y]
        constructor
        · rintro (h | h)
          · exact hL c (List.mem_cons_self _ _) y h
          · exact h
        · exact Or.inr
    exact main (chunked chunkSize symbols) _ hchunks
      (fun x => dictInit_keys symbols none x)
  · -- value invariant
    rw [fetchBatch]
    have main : ∀ (L : List (List PyStr)) (m : List (PyStr × Option DataFrame)),
        (∀ p ∈ m, p.2 = none ∨ ∃ d, p.2 = some d ∧ d.isEmpty = false ∧
          ∃ w, d = prepareFrame w) →
        ∀ p ∈ (L.foldl (fun results chunk =>
          chunk.foldl (fun res s =>
            dictUpsert res s (resolveSymbolValue
              (splitBatchResult chunk
                (downloadChunk (chunkOp chunk) maxRetries d0 factor))
              singleOp maxRetries d0 factor s)) results) m),
          p.2 = none ∨ ∃ d, p.2 = some d ∧ d.isEmpty = false ∧
            ∃ w, d = prepareFrame w := by
      intro L
      induction L with
      | nil => intro m hm p hp; exact hm p hp
      | cons c L ih =>
        intro m hm p hp
        rw [List.foldl_cons] at hp
        refine ih _ ?_ p hp
        refine foldl_upsert_values
          (fun v => v = none ∨ ∃ d, v = some d ∧ d.isEmpty = false ∧
            ∃ w, d = prepareFrame w)
          (fun s => resolveSymbolValue
            (splitBatchResult c (downloadChunk (chunkOp c) maxRetries d0 factor))
            singleOp maxRetries d0 factor s) ?_ c m hm
        intro s
        exact resolveSymbolValue_good _ singleOp maxRetries d0 factor s
          (splitBatchResult_values c _)
    intro p hp
    have := main (chunked chunkSize symbols) _
      (fun q hq => Or.inl (dictInit_values symbols none q hq)) p hp
    rcases this with h | ⟨d, hd, hde, w, hw⟩
    · exact Or.inl h
    · refine Or.inr ⟨d, hd, hde, ?_, ?_, ?_⟩
      · subst hw
        exact prepareFrame_rows w
      · subst hw
        exact prepareFrame_tz w
      · subst hw
        exact prepareFrame_sorted w

/-- Witness for the `fetch_batch` contract: a two-symbol scan with chunk
size 1, a batch transport that always fails and a single-symbol
transport that succeeds for one symbol with unsorted, partially missing
rows; the returned mapping is computed concretely. -/
theorem fetch_batch_contract_witness :
    ((∀ x, x ∈ (fetchBatch
        (fun _ _ => (Except.error () : Except Unit BatchDF))
        (fun s _ => if s = [65] then
            Except.ok (⟨[(5, [none, none]), (3, [some 7, none]), (1, [some 2, some 4])],
              some 60, none⟩ : DataFrame)
          else Except.error ())
        [[65], [66]] 1 3 1 2).map Prod.fst ↔ x ∈ [[65], [66]]) ∧
      (∀ p ∈ fetchBatch
        (fun _ _ => (Except.error () : Except Unit BatchDF))
        (fun s _ => if s = [65] then
            Except.ok (⟨[(5, [none, none]), (3, [some 7, none]), (1, [some 2, some 4])],
              some 60, none⟩ : DataFrame)
          else Except.error ())
        [[65], [66]] 1 3 1 2,
        p.2 = none ∨ ∃ d, p.2 = some d ∧ d.isEmpty = false ∧
          (∀ r ∈ d.rows, rowAllMissing r.2 = false) ∧ d.tz = none ∧
          sortedByIdx d.rows = true)) ∧
    fetchBatch
        (fun _ _ => (Except.error () : Except Unit BatchDF))
        (fun s _ => if s = [65] then
            Except.ok (⟨[(5, [none, none]), (3, [some 7, none]), (1, [some 2, some 4])],
              some 60, none⟩ : DataFrame)
          else Except.error ())
        [[65], [66]] 1 3 1 2 =
      [([65], some ⟨[(1, [some 2, some 4]), (3, [some 7, none])], none, none⟩),
       ([66], none)] :=
  ⟨fetch_batch_contract _ _ [[65], [66]] 1 3 1 2 (by decide), by decide⟩

/-! ### Cache (core/cache.py) -/

/-- `_sanitize_symbol`: `symbol.replace("/", "-").upper()`
(code points: `/` = 47, `-` = 45). -/
def sanitizeSymbol (s : PyStr) : PyStr :=
  pyUpper (s.map (fun c => if c = 47 then 45 else c))

/-- On-disk cache state.  `files` maps `(sanitized symbol, period)` to
the stored Parquet frame (`_path_for` sanitizes the symbol for the file
name); `meta` is the SQLite index mapping the *raw* `(symbol, period)`
to `(updated_at, row count)` (`_upsert_metadata` stores the raw
symbol). -/
structure CacheState where
  files : List ((PyStr × PyStr) × DataFrame)
  meta : List ((PyStr × PyStr) × (Int × Nat))
deriving DecidableEq, Repr

/-- `Cache.set`: a no-op on empty frames; otherwise normalise a tz-aware
index to naive (`tz_convert(None)` keeps the timestamps and drops the
timezone), write the Parquet file — Parquet does not preserve the index
`freq` metadata, so the stored frame has `freq := none` — and upsert the
index row with `updated_at := now` and the row count.  (Write I/O
failures, which degrade to "not persisted", are not modelled: the pure
store always accepts the write.) -/
def cacheSet (cs : CacheState) (symbol period : PyStr) (df : DataFrame)
    (now : Int) : CacheState :=
  if df.isEmpty then cs
  else
    { files := dictUpsert cs.files (sanitizeSymbol symbol, period)
        { rows := df.rows, tz := none, freq := none },
      meta := dictUpsert cs.meta (symbol, period) (now, df.rows.length) }

/-- `Cache._restore_index_frequency`: if the loaded index carries no
`freq`, ask pandas `infer_freq` (external collaborator `infer`) and
attach the inferred frequency; rows and timezone are unchanged. -/
def restoreIndexFrequency (infer : List Int → Option Nat) (df : DataFrame) :
    DataFrame :=
  if df.freq ≠ none then df
  else
    match infer (df.rows.map Prod.fst) with
    | some f => { df with freq := some f }
    | none => df

/-- `Cache.get`: absent when the file is missing or the loaded frame is
empty; otherwise the stored frame with its index frequency restored.
(Read I/O failures, which also degrade to absent, are not modelled: the
pure store is always readable.) -/
def cacheGet (infer : List Int → Option Nat) (cs : CacheState)
    (symbol period : PyStr) : Option DataFrame :=
  match cs.files.lookup (sanitizeSymbol symbol, period) with
  | none => none
  | some df => if df.isEmpty then none else some (restoreIndexFrequency infer df)

/-- pandas equality of two frames "in values and index": equal rows
(index timestamps and cell values) and equal index timezone, since
`Index.equals` distinguishes a tz-aware index from a naive one; the
index `freq` metadata does not participate in pandas equality. -/
def valuesIndexEqual (a b : DataFrame) : Prop := a.rows = b.rows ∧ a.tz = b.tz

theorem lookup_dictUpsert_self {K V : Type} [DecidableEq K] [BEq K] [LawfulBEq K] :
    ∀ (m : List (K × V)) (k : K) (v : V), (dictUpsert m k v).lookup k = some v := by
  intro m
  induction m with
  | nil =>
    intro k v
    rw [dictUpsert, List.lookup_cons]
    simp
  | cons q rest ih =>
    intro k v
    obtain ⟨k0, v0⟩ := q
    rw [dictUpsert]
    split
    · rename_i hk
      subst hk
      rw [List.lookup_cons]
      simp
    · rename_i hk
      rw [List.lookup_cons]
      have : (k == k0) = false := beq_eq_false_iff_ne.mpr (fun h => hk h.symm)
      rw [this]
      exact ih k v

theorem lookup_dictUpsert_ne {K V : Type} [DecidableEq K] [BEq K] [LawfulBEq K] :
    ∀ (m : List (K × V)) (k k2 : K) (v : V), k2 ≠ k →
      (dictUpsert m k v).lookup k2 = m.lookup k2 := by
  intro m
  induction m with
  | nil =>
    intro k k2 v hne
    rw [dictUpsert, List.lookup_cons]
    simp [beq_eq_false_iff_ne.mpr hne]
  | cons q rest ih =>
    intro k k2 v hne
    obtain ⟨k0, v0⟩ := q
    rw [dictUpsert]
    split
    · rename_i hk
      subst hk
      rw [List.lookup_cons, List.lookup_cons]
      simp [beq_eq_false_iff_ne.mpr hne]
    · rw [List.lookup_cons, List.lookup_cons]
      cases hbeq : (k2 == k0)
      · exact ih k k2 v hne
      · rfl

theorem restoreIndexFrequency_rows (infer : List Int → Option Nat) (df : DataFrame) :
    (restoreIndexFrequency infer df).rows = df.rows ∧
    (restoreIndexFrequency infer df).tz = df.tz := by
  unfold restoreIndexFrequency
  split
  · exact ⟨rfl, rfl⟩
  · cases infer (df.rows.map Prod.fst) with
    | some f => exact ⟨rfl, rfl⟩
    | none => exact ⟨rfl, rfl⟩

/-- **C7 (amended).** For every non-empty series whose index is
timezone-naive, `set(symbol, period, S)` followed immediately by
`get(symbol, period)` returns a series equal to `S` in values and index
(the index `freq` metadata may be re-inferred, which pandas equality
ignores).  For a timezone-aware index, `set` normalises it to naive, so
the returned index is the naive version of the original (same
timestamps); values still round-trip, index equality does not. -/
theorem cache_roundtrip (cs : CacheState) (symbol period : PyStr)
    (df : DataFrame) (now : Int) (infer : List Int → Option Nat)
    (hne : df.isEmpty = false) (htz : df.tz = none) :
    ∃ d, cacheGet infer (cacheSet cs symbol period df now) symbol period = some d ∧
      valuesIndexEqual d df := by
  have hlk : (cacheSet cs symbol period df now).files.lookup
      (sanitizeSymbol symbol, period) = some ⟨df.rows, none, none⟩ := by
    unfold cacheSet
    rw [if_neg (by simp [hne])]
    exact lookup_dictUpsert_self _ _ _
  have hstored : (⟨df.rows, none, none⟩ : DataFrame).isEmpty = false := hne
  refine ⟨restoreIndexFrequency infer ⟨df.rows, none, none⟩, ?_, ?_⟩
  · unfold cacheGet
    rw [hlk]
    simp [hstored]
  · have h := restoreIndexFrequency_rows infer ⟨df.rows, none, none⟩
    exact ⟨h.1, by rw [h.2, htz]⟩

/-- Witness for the amended cache round-trip at a concrete non-empty,
tz-naive frame: symbol `"a"` (sanitized to `"A"` in the file name),
period `"1"`. -/
theorem cache_roundtrip_witness :
    (⟨[(1, [some 2])], none, none⟩ : DataFrame).isEmpty = false ∧
    (⟨[(1, [some 2])], none, none⟩ : DataFrame).tz = none ∧
    ∃ d, cacheGet (fun _ => some 3)
        (cacheSet ⟨[], []⟩ [97] [49] ⟨[(1, [some 2])], none, none⟩ 7) [97] [49] =
          some d ∧
      valuesIndexEqual d ⟨[(1, [some 2])], none, none⟩ :=
  ⟨by decide, rfl,
    cache_roundtrip ⟨[], []⟩ [97] [49] ⟨[(1, [some 2])], none, none⟩ 7
      (fun _ => some 3) (by decide) rfl⟩

/-- **C7 (counterexample).** Store a non-empty frame whose index is
timezone-aware (`tz = some 0`): `get` after `set` returns the frame with
the timezone stripped, so the returned series is NOT equal to the stored
one in values and index — pandas index equality distinguishes a tz-aware
index from a naive one. -/
theorem cache_roundtrip_tz_counterexample :
    cacheGet (fun _ => none)
        (cacheSet ⟨[], []⟩ [65] [49] ⟨[(0, [some 1])], some 0, none⟩ 5) [65] [49] =
      some ⟨[(0, [some 1])], none, none⟩ ∧
    ¬ valuesIndexEqual (⟨[(0, [some 1])], none, none⟩ : DataFrame)
        ⟨[(0, [some 1])], some 0, none⟩ := by
  constructor
  · decide
  · intro h
    exact Option.noConfusion h.2

/-! ### PriceDataLoader (ScanRunner._load_price_data) -/

/-- First pass of `_load_price_data` over the symbols, in order: a
non-empty, fresh cache entry is a hit and goes straight to the price
map; a non-empty but stale entry is kept as a stale candidate and the
symbol is marked for fetching; anything else is just marked for
fetching.  `cg s` is `cache.get(s, period)` and `st s` is
`cache.is_stale(s, period)` at scan time.  Returns
`(price map, stale candidates, cache_hits, symbols_to_fetch)`.
(The `.copy()` and `attrs` symbol tag are value-preserving and not
modelled.) -/
def loadCachePass (cg : PyStr → Option DataFrame) (st : PyStr → Bool) :
    List PyStr →
      List (PyStr × DataFrame) × List (PyStr × DataFrame) × Nat × List PyStr
  | [] => ([], [], 0, [])
  | s :: rest =>
    let (pm, stale, hits, tf) := loadCachePass cg st rest
    match cg s with
    | some df =>
      if df.isEmpty then (pm, stale, hits, s :: tf)
      else if st s then (pm, (s, df) :: stale, hits, s :: tf)
      else ((s, df) :: pm, stale, hits + 1, tf)
    | none => (pm, stale, hits, s :: tf)

/-- Second pass of `_load_price_data` over `symbols_to_fetch`: a
successful non-empty fetched frame is used, written through to the cache
(recorded in the returned list of `cache.set` calls) and counted as a
miss; otherwise the stale candidate, if any, is used.  `fetched` is the
mapping returned by `fetch_batch`.  Returns
`(price map entries, cache_misses, set calls)`. -/
def loadFetchPass (fetched : PyStr → Option DataFrame)
    (stale : List (PyStr × DataFrame)) :
    List PyStr → List (PyStr × DataFrame) × Nat × List (PyStr × DataFrame)
  | [] => ([], 0, [])
  | s :: rest =>
    let (pm, misses, sets) := loadFetchPass fetched stale rest
    match fetched s with
    | some df =>
      if df.isEmpty then
        match stale.lookup s with
        | some sdf => ((s, sdf) :: pm, misses, sets)
        | none => (pm, misses, sets)
      else ((s, df) :: pm, misses + 1, (s, df) :: sets)
    | none =>
      match stale.lookup s with
      | some sdf => ((s, sdf) :: pm, misses, sets)
      | none => (pm, misses, sets)

/-- `ScanRunner._load_price_data`: the cache pass followed by one
batched fetch (`fetched` is its result) and the fetch pass.  Returns
`(price map, cache_hits, cache_misses, cache.set calls)`.  (The
`if symbols_to_fetch:` guard is omitted: with nothing to fetch the
fetch pass contributes nothing.) -/
def loadPriceData (cg : PyStr → Option DataFrame) (st : PyStr → Bool)
    (fetched : PyStr → Option DataFrame) (symbols : List PyStr) :
    List (PyStr × DataFrame) × Nat × Nat × List (PyStr × DataFrame) :=
  let (pm, stale, hits, tf) := loadCachePass cg st symbols
  let (pm2, misses, sets) := loadFetchPass fetched stale tf
  (pm ++ pm2, hits, misses, sets)

/-- A symbol is a cache hit: non-empty cached frame that is not stale. -/
def hitCond (cg : PyStr → Option DataFrame) (st : PyStr → Bool) (s : PyStr) :
    Bool :=
  match cg s with
  | some df => !df.isEmpty && !st s
  | none => false

/-- The batched fetch produced non-empty data for the symbol. -/
def fetchOk (fetched : PyStr → Option DataFrame) (s : PyStr) : Bool :=
  match fetched s with
  | some df => !df.isEmpty
  | none => false

/-- Per-symbol contribution to the cache-pass price map. -/
def hitFun (cg : PyStr → Option DataFrame) (st : PyStr → Bool) (s : PyStr) :
    Option (PyStr × DataFrame) :=
  match cg s with
  | some df => if !df.isEmpty && !st s then some (s, df) else none
  | none => none

/-- Per-symbol contribution to the stale-candidate map. -/
def staleFun (cg : PyStr → Option DataFrame) (st : PyStr → Bool) (s : PyStr) :
    Option (PyStr × DataFrame) :=
  match cg s with
  | some df => if !df.isEmpty && st s then some (s, df) else none
  | none => none

/-- Per-symbol contribution to the fetch-pass price map. -/
def useFun (fetched : PyStr → Option DataFrame)
    (stale : List (PyStr × DataFrame)) (s : PyStr) :
    Option (PyStr × DataFrame) :=
  match fetched s with
  | some df =>
    if df.isEmpty then (stale.lookup s).map (fun sdf => (s, sdf))
    else some (s, df)
  | none => (stale.lookup s).map (fun sdf => (s, sdf))

/-- Per-symbol contribution to the list of `cache.set` calls. -/
def setFun (fetched : PyStr → Option DataFrame) (s : PyStr) :
    Option (PyStr × DataFrame) :=
  match fetched s with
  | some df => if df.isEmpty then none else some (s, df)
  | none => none

theorem loadCachePass_spec (cg : PyStr → Option DataFrame) (st : PyStr → Bool) :
    ∀ symbols : List PyStr,
      loadCachePass cg st symbols =
        (symbols.filterMap (hitFun cg st),
         symbols.filterMap (staleFun cg st),
         symbols.countP (hitCond cg st),
         symbols.filter (fun s => !hitCond cg st s)) := by
  intro symbols
  induction symbols with
  | nil => rfl
  | cons s rest ih =>
    rw [loadCachePass, ih]
    cases hcg : cg s with
    | none =>
      simp [List.filterMap_cons, List.countP_cons, List.filter_cons,
        hitCond, hitFun, staleFun, hcg]
    | some df =>
      by_cases he : df.isEmpty
      · simp [List.filterMap_cons, List.countP_cons, List.filter_cons,
          hitCond, hitFun, staleFun, hcg, he]
      · by_cases hst : st s
        · simp [List.filterMap_cons, List.countP_cons, List.filter_cons,
            hitCond, hitFun, staleFun, hcg, he, hst]
        · simp [List.filterMap_cons, List.countP_cons, List.filter_cons,
            hitCond, hitFun, staleFun, hcg, he, hst]

theorem loadFetchPass_spec (fetched : PyStr → Option DataFrame)
    (stale : List (PyStr × DataFrame)) :
    ∀ tf : List PyStr,
      loadFetchPass fetched stale tf =
        (tf.filterMap (useFun fetched stale),
         tf.countP (fetchOk fetched),
         tf.filterMap (setFun fetched)) := by
  intro tf
  induction tf with
  | nil => rfl
  | cons s rest ih =>
    rw [loadFetchPass, ih]
    cases hf : fetched s with
    | none =>
      cases hls : stale.lookup s with
      | none =>
        simp [List.filterMap_cons, List.countP_cons, useFun, setFun, fetchOk,
          hf, hls]
      | some sdf =>
        simp [List.filterMap_cons, List.countP_cons, useFun, setFun, fetchOk,
          hf, hls]
    | some df =>
      by_cases he : df.isEmpty
      · cases hls : stale.lookup s with
        | none =>
          simp [List.filterMap_cons, List.countP_cons, useFun, setFun, fetchOk,
            hf, hls, he]
        | some sdf =>
          simp [List.filterMap_cons, List.countP_cons, useFun, setFun, fetchOk,
            hf, hls, he]
      · simp [List.filterMap_cons, List.countP_cons, useFun, setFun, fetchOk,
          hf, he]

theorem loadPriceData_eq (cg : PyStr → Option DataFrame) (st : PyStr → Bool)
    (fetched : PyStr → Option DataFrame) (symbols : List PyStr) :
    loadPriceData cg st fetched symbols =
      (symbols.filterMap (hitFun cg st) ++
        (symbols.filter (fun s => !hitCond cg st s)).filterMap
          (useFun fetched (symbols.filterMap (staleFun cg st))),
       symbols.countP (hitCond cg st),
       (symbols.filter (fun s => !hitCond cg st s)).countP (fetchOk fetched),
       (symbols.filter (fun s => !hitCond cg st s)).filterMap (setFun fetched)) := by
  unfold loadPriceData
  rw [loadCachePass_spec]
  dsimp only
  rw [loadFetchPass_spec]

/-! ### Association-list helper lemmas for the loader -/

theorem lookup_eq_none_of_keys {K V : Type} [BEq K] [LawfulBEq K] :
    ∀ (l : List (K × V)) (k : K), k ∉ l.map Prod.fst → l.lookup k = none := by
  intro l
  induction l with
  | nil => intro k _; rfl
  | cons q rest ih =>
    intro k hk
    obtain ⟨k0, v0⟩ := q
    simp only [List.map_cons, List.mem_cons] at hk
    push_neg at hk
    rw [List.lookup_cons]
    rw [beq_eq_false_iff_ne.mpr hk.1]
    exact ih k hk.2

theorem lookup_of_mem_nodupkeys {K V : Type} [BEq K] [LawfulBEq K] :
    ∀ (l : List (K × V)), (l.map Prod.fst).Nodup →
      ∀ (k : K) (v : V), (k, v) ∈ l → l.lookup k = some v := by
  intro l
  induction l with
  | nil => intro _ k v hm; simp at hm
  | cons q rest ih =>
    intro hnd k v hm
    obtain ⟨k0, v0⟩ := q
    simp only [List.map_cons, List.nodup_cons] at hnd
    rw [List.lookup_cons]
    rcases List.mem_cons.mp hm with h | h
    · injection h with h1 h2
      subst h1
      subst h2
      simp
    · have hne : k ≠ k0 := by
        intro hkk
        subst hkk
        exact hnd.1 (List.mem_map.mpr ⟨(k, v), h, rfl⟩)
      rw [beq_eq_false_iff_ne.mpr hne]
      exact ih hnd.2 k v h

theorem mem_keys_filterMap {K V : Type} (g : K → Option (K × V))
    (hg : ∀ s p, g s = some p → p.1 = s) (l : List K) (k : K)
    (h : k ∈ (l.filterMap g).map Prod.fst) : k ∈ l := by
  obtain ⟨p, hp, hpk⟩ := List.mem_map.mp h
  obtain ⟨s, hs, hgs⟩ := List.mem_filterMap.mp hp
  have hps := hg s p hgs
  have : k = s := by rw [← hpk, hps]
  rw [this]
  exact hs

theorem not_mem_keys_filterMap {K V : Type} (g : K → Option (K × V))
    (hg : ∀ s p, g s = some p → p.1 = s) (l : List K) (k : K)
    (hk : g k = none) : k ∉ (l.filterMap g).map Prod.fst := by
  intro h
  obtain ⟨p, hp, hpk⟩ := List.mem_map.mp h
  obtain ⟨s, hs, hgs⟩ := List.mem_filterMap.mp hp
  have hps := hg s p hgs
  have hks : k = s := by rw [← hpk, hps]
  subst hks
  rw [hk] at hgs
  exact Option.noConfusion hgs

theorem nodup_keys_filterMap {K V : Type} (g : K → Option (K × V))
    (hg : ∀ s p, g s = some p → p.1 = s) :
    ∀ l : List K, l.Nodup → ((l.filterMap g).map Prod.fst).Nodup := by
  intro l
  induction l with
  | nil => intro _; simp
  | cons s rest ih =>
    intro hnd
    rw [List.nodup_cons] at hnd
    rw [List.filterMap_cons]
    cases hgs : g s with
    | none => exact ih hnd.2
    | some p =>
      rw [List.map_cons, List.nodup_cons]
      refine ⟨?_, ih hnd.2⟩
      rw [hg s p hgs]
      intro hmem
      exact hnd.1 (mem_keys_filterMap g hg rest s hmem)

/-- Key shapes of the per-symbol contribution functions. -/
theorem hitFun_key (cg : PyStr → Option DataFrame) (st : PyStr → Bool) :
    ∀ s p, hitFun cg st s = some p → p.1 = s := by
  intro s p h
  unfold hitFun at h
  cases hcg : cg s with
  | none =>
    rw [hcg] at h
    dsimp only at h
    exact Option.noConfusion h
  | some df =>
    rw [hcg] at h
    dsimp only at h
    by_cases hc : (!df.isEmpty && !st s) = true
    · rw [if_pos hc] at h
      injection h with h1
      rw [← h1]
    · rw [if_neg hc] at h
      exact Option.noConfusion h

theorem staleFun_key (cg : PyStr → Option DataFrame) (st : PyStr → Bool) :
    ∀ s p, staleFun cg st s = some p → p.1 = s := by
  intro s p h
  unfold staleFun at h
  cases hcg : cg s with
  | none =>
    rw [hcg] at h
    dsimp only at h
    exact Option.noConfusion h
  | some df =>
    rw [hcg] at h
    dsimp only at h
    by_cases hc : (!df.isEmpty && st s) = true
    · rw [if_pos hc] at h
      injection h with h1
      rw [← h1]
    · rw [if_neg hc] at h
      exact Option.noConfusion h

theorem useFun_key (fetched : PyStr → Option DataFrame)
    (stale : List (PyStr × DataFrame)) :
    ∀ s p, useFun fetched stale s = some p → p.1 = s := by
  intro s p h
  have hmap : ∀ (o : Option DataFrame),
      o.map (fun sdf => (s, sdf)) = some p → p.1 = s := by
    intro o ho
    cases o with
    | none => exact Option.noConfusion ho
    | some sdf =>
      simp only [Option.map_some'] at ho
      injection ho with h1
      rw [← h1]
  unfold useFun at h
  cases hf : fetched s with
  | none =>
    rw [hf] at h
    dsimp only at h
    exact hmap _ h
  | some df =>
    rw [hf] at h
    dsimp only at h
    by_cases he : df.isEmpty = true
    · rw [if_pos he] at h
      exact hmap _ h
    · rw [if_neg he] at h
      injection h with h1
      rw [← h1]

theorem setFun_key (fetched : PyStr → Option DataFrame) :
    ∀ s p, setFun fetched s = some p → p.1 = s := by
  intro s p h
  unfold setFun at h
  cases hf : fetched s with
  | none =>
    rw [hf] at h
    dsimp only at h
    exact Option.noConfusion h
  | some df =>
    rw [hf] at h
    dsimp only at h
    by_cases he : df.isEmpty = true
    · rw [if_pos he] at h
      exact Option.noConfusion h
    · rw [if_neg he] at h
      injection h with h1
      rw [← h1]

/-- **C6.** Stale fallback: for a symbol `X` whose cache entry is
non-empty but stale and whose batched fetch slot is absent or empty, the
loader's price map maps `X` to the stale cached series; `cache_hits`
counts exactly the fresh-hit symbols and `cache_misses` exactly the
successfully fetched symbols, and `X` satisfies neither condition, so
neither counter is incremented for `X`. -/
theorem stale_fallback (cg : PyStr → Option DataFrame) (st : PyStr → Bool)
    (fetched : PyStr → Option DataFrame) (symbols : List PyStr) (X : PyStr)
    (d : DataFrame) (hnd : symbols.Nodup) (hX : X ∈ symbols)
    (hcg : cg X = some d) (hne : d.isEmpty = false) (hst : st X = true)
    (hfet : fetched X = none ∨ ∃ e, fetched X = some e ∧ e.isEmpty = true) :
    (loadPriceData cg st fetched symbols).1.lookup X = some d ∧
    (loadPriceData cg st fetched symbols).2.1 = symbols.countP (hitCond cg st) ∧
    hitCond cg st X = false ∧
    (loadPriceData cg st fetched symbols).2.2.1 =
      (symbols.filter (fun s => !hitCond cg st s)).countP (fetchOk fetched) ∧
    fetchOk fetched X = false := by
  have hitX : hitCond cg st X = false := by
    unfold hitCond
    rw [hcg, hst]
    simp
  have fetchOkX : fetchOk fetched X = false := by
    unfold fetchOk
    rcases hfet with h | ⟨e, he, hee⟩
    · rw [h]
    · rw [he]
      simpa using hee
  refine ⟨?_, by rw [loadPriceData_eq], hitX, by rw [loadPriceData_eq], fetchOkX⟩
  rw [loadPriceData_eq]
  have hstaleX : staleFun cg st X = some (X, d) := by
    simp [staleFun, hcg, hst, hne]
  have hstale_lookup :
      (symbols.filterMap (staleFun cg st)).lookup X = some d :=
    lookup_of_mem_nodupkeys _
      (nodup_keys_filterMap _ (staleFun_key cg st) symbols hnd) X d
      (List.mem_filterMap.mpr ⟨X, hX, hstaleX⟩)
  have huseX : useFun fetched (symbols.filterMap (staleFun cg st)) X =
      some (X, d) := by
    rcases hfet with h | ⟨e, he, hee⟩
    · simp [useFun, h, hstale_lookup]
    · simp [useFun, he, hee, hstale_lookup]
  have hXtf : X ∈ symbols.filter (fun s => !hitCond cg st s) :=
    List.mem_filter.mpr ⟨hX, by rw [hitX]; rfl⟩
  have htf_nodup : (symbols.filter (fun s => !hitCond cg st s)).Nodup :=
    hnd.filter _
  have hitFunX : hitFun cg st X = none := by
    simp [hitFun, hcg, hst, hne]
  have hleft : (symbols.filterMap (hitFun cg st)).lookup X = none :=
    lookup_eq_none_of_keys _ X
      (not_mem_keys_filterMap _ (hitFun_key cg st) symbols X hitFunX)
  have hright :
      ((symbols.filter (fun s => !hitCond cg st s)).filterMap
        (useFun fetched (symbols.filterMap (staleFun cg st)))).lookup X =
        some d :=
    lookup_of_mem_nodupkeys _
      (nodup_keys_filterMap _
        (useFun_key fetched (symbols.filterMap (staleFun cg st)))
        _ htf_nodup) X d
      (List.mem_filterMap.mpr ⟨X, hXtf, huseX⟩)
  rw [List.lookup_append, hleft, hright]
  rfl

/-- Witness for the stale-fallback claim: symbol `"A"` has a non-empty
stale cache entry and an empty fetch slot, symbol `"B"` is a fresh cache
hit; `"A"` is served the stale frame and contributes to neither
counter. -/
theorem stale_fallback_witness :
    [[65], [66]].Nodup ∧ [65] ∈ [[65], [66]] ∧
    (loadPriceData
        (fun s => if s = [65] then some ⟨[(1, [some 9])], none, none⟩
          else some ⟨[(2, [some 8])], none, none⟩)
        (fun s => s = [65])
        (fun s => if s = [65] then some ⟨[], none, none⟩ else none)
        [[65], [66]]).1.lookup [65] = some ⟨[(1, [some 9])], none, none⟩ ∧
    hitCond (fun s => if s = [65] then some ⟨[(1, [some 9])], none, none⟩
        else some ⟨[(2, [some 8])], none, none⟩) (fun s => s = [65]) [65] = false ∧
    fetchOk (fun s => if s = [65] then some ⟨[], none, none⟩ else none) [65] = false :=
  ⟨by decide, by decide,
    (stale_fallback
      (fun s => if s = [65] then some ⟨[(1, [some 9])], none, none⟩
        else some ⟨[(2, [some 8])], none, none⟩)
      (fun s => s = [65])
      (fun s => if s = [65] then some ⟨[], none, none⟩ else none)
      [[65], [66]] [65] ⟨[(1, [some 9])], none, none⟩
      (by decide) (by decide) (by decide) (by decide) (by decide)
      (Or.inr ⟨⟨[], none, none⟩, by decide, by decide⟩)).1,
    (stale_fallback
      (fun s => if s = [65] then some ⟨[(1, [some 9])], none, none⟩
        else some ⟨[(2, [some 8])], none, none⟩)
      (fun s => s = [65])
      (fun s => if s = [65] then some ⟨[], none, none⟩ else none)
      [[65], [66]] [65] ⟨[(1, [some 9])], none, none⟩
      (by decide) (by decide) (by decide) (by decide) (by decide)
      (Or.inr ⟨⟨[], none, none⟩, by decide, by decide⟩)).2.2.1,
    (stale_fallback
      (fun s => if s = [65] then some ⟨[(1, [some 9])], none, none⟩
        else some ⟨[(2, [some 8])], none, none⟩)
      (fun s => s = [65])
      (fun s => if s = [65] then some ⟨[], none, none⟩ else none)
      [[65], [66]] [65] ⟨[(1, [some 9])], none, none⟩
      (by decide) (by decide) (by decide) (by decide) (by decide)
      (Or.inr ⟨⟨[], none, none⟩, by decide, by decide⟩)).2.2.2.2⟩

/-! ### Write-through effect of the loader on the cache (C10) -/

/-- The write-through calls the loader makes during one scan:
`cache.set(symbol, period, df)` folded over the recorded set calls. -/
def cacheSetMany (cs : CacheState) (period : PyStr)
    (sets : List (PyStr × DataFrame)) (now : Int) : CacheState :=
  sets.foldl (fun acc p => cacheSet acc p.1 period p.2 now) cs

theorem cacheSet_preserves (X period s : PyStr) (df : DataFrame)
    (cs : CacheState) (now : Int) (infer : List Int → Option Nat)
    (hsan : sanitizeSymbol s ≠ sanitizeSymbol X) (hraw : s ≠ X) :
    cacheGet infer (cacheSet cs s period df now) X period =
      cacheGet infer cs X period ∧
    (cacheSet cs s period df now).meta.lookup (X, period) =
      cs.meta.lookup (X, period) := by
  unfold cacheSet
  by_cases he : df.isEmpty = true
  · rw [if_pos he]
    exact ⟨rfl, rfl⟩
  · rw [if_neg he]
    constructor
    · unfold cacheGet
      rw [lookup_dictUpsert_ne]
      intro hk
      exact hsan (congrArg Prod.fst hk).symm
    · rw [lookup_dictUpsert_ne]
      intro hk
      exact hraw (congrArg Prod.fst hk).symm

theorem cacheSetMany_preserves (period X : PyStr) (infer : List Int → Option Nat) :
    ∀ (sets : List (PyStr × DataFrame)) (cs : CacheState) (now : Int),
      (∀ s ∈ sets.map Prod.fst, sanitizeSymbol s ≠ sanitizeSymbol X ∧ s ≠ X) →
      cacheGet infer (cacheSetMany cs period sets now) X period =
        cacheGet infer cs X period ∧
      (cacheSetMany cs period sets now).meta.lookup (X, period) =
        cs.meta.lookup (X, period) := by
  intro sets
  induction sets with
  | nil => intro cs now _; exact ⟨rfl, rfl⟩
  | cons q rest ih =>
    intro cs now hs
    obtain ⟨s, df⟩ := q
    have hhead := hs s (by simp)
    have h1 := cacheSet_preserves X period s df cs now infer hhead.1 hhead.2
    have h2 := ih (cacheSet cs s period df now) now
      (fun s2 hs2 => hs s2 (by simp only [List.map_cons, List.mem_cons]; exact Or.inr hs2))
    unfold cacheSetMany at *
    rw [List.foldl_cons]
    exact ⟨h2.1.trans h1.1, h2.2.trans h1.2⟩

/-- **C10 (amended).** When the loader serves a stale cached series for
`X` because the fetch failed or was empty, it never calls `cache.set`
for `X`, and `cache.set` is invoked exactly for symbols whose fetch
succeeded with non-empty data.  Consequently `X`'s index row
(`updated_at`, row count) is unchanged by the scan — and `X`'s stored
series file is unchanged provided no written symbol sanitizes to `X`'s
file key (the cache keys files by the sanitized symbol: `/` becomes `-`
and the symbol is uppercased, so two distinct normalized symbols can
share one file). -/
theorem stale_fallback_no_write (cg : PyStr → Option DataFrame)
    (st : PyStr → Bool) (fetched : PyStr → Option DataFrame)
    (symbols : List PyStr) (X : PyStr)
    (hfet : fetched X = none ∨ ∃ e, fetched X = some e ∧ e.isEmpty = true) :
    X ∉ (loadPriceData cg st fetched symbols).2.2.2.map Prod.fst ∧
    (∀ p ∈ (loadPriceData cg st fetched symbols).2.2.2,
      fetched p.1 = some p.2 ∧ p.2.isEmpty = false) ∧
    (∀ (cs : CacheState) (period : PyStr) (now : Int)
      (infer : List Int → Option Nat),
      (∀ s ∈ (loadPriceData cg st fetched symbols).2.2.2.map Prod.fst,
        sanitizeSymbol s ≠ sanitizeSymbol X) →
      cacheGet infer (cacheSetMany cs period
          (loadPriceData cg st fetched symbols).2.2.2 now) X period =
        cacheGet infer cs X period ∧
      (cacheSetMany cs period
          (loadPriceData cg st fetched symbols).2.2.2 now).meta.lookup
          (X, period) =
        cs.meta.lookup (X, period)) := by
  have hsets : (loadPriceData cg st fetched symbols).2.2.2 =
      (symbols.filter (fun s => !hitCond cg st s)).filterMap (setFun fetched) := by
    rw [loadPriceData_eq]
  have hsetX : setFun fetched X = none := by
    rcases hfet with h | ⟨e, he, hee⟩
    · simp [setFun, h]
    · simp [setFun, he, hee]
  have hnotmem : X ∉ (loadPriceData cg st fetched symbols).2.2.2.map Prod.fst := by
    rw [hsets]
    exact not_mem_keys_filterMap _ (setFun_key fetched) _ X hsetX
  refine ⟨hnotmem, ?_, ?_⟩
  · intro p hp
    rw [hsets] at hp
    obtain ⟨s, _, hgs⟩ := List.mem_filterMap.mp hp
    unfold setFun at hgs
    cases hf : fetched s with
    | none =>
      rw [hf] at hgs
      dsimp only at hgs
      exact Option.noConfusion hgs
    | some df =>
      rw [hf] at hgs
      dsimp only at hgs
      by_cases he : df.isEmpty = true
      · rw [if_pos he] at hgs
        exact Option.noConfusion hgs
      · rw [if_neg he] at hgs
        injection hgs with h1
        rw [← h1]
        simp only
        exact ⟨hf, by simpa using he⟩
  · intro cs period now infer hsan
    refine cacheSetMany_preserves period X infer _ cs now ?_
    intro s hsk
    refine ⟨hsan s hsk, ?_⟩
    intro hsx
    subst hsx
    exact hnotmem hsk

/-- Witness for the amended no-write claim: `"A"` is the stale-fallback
symbol, `"B"` is fetched successfully; the scan's only `cache.set` call
is for `"B"`, and `"A"`'s file and index row are untouched. -/
theorem stale_fallback_no_write_witness :
    [65] ∉ (loadPriceData
        (fun s => if s = [65] then some ⟨[(1, [some 9])], none, none⟩ else none)
        (fun _ => true)
        (fun s => if s = [66] then some ⟨[(2, [some 8])], none, none⟩ else none)
        [[65], [66]]).2.2.2.map Prod.fst ∧
    (cacheSetMany
        ⟨[(([65], [49]), ⟨[(1, [some 9])], none, none⟩)],
         [(([65], [49]), (0, 1))]⟩ [49]
        (loadPriceData
          (fun s => if s = [65] then some ⟨[(1, [some 9])], none, none⟩ else none)
          (fun _ => true)
          (fun s => if s = [66] then some ⟨[(2, [some 8])], none, none⟩ else none)
          [[65], [66]]).2.2.2 9).meta.lookup ([65], [49]) =
      (⟨[(([65], [49]), ⟨[(1, [some 9])], none, none⟩)],
         [(([65], [49]), (0, 1))]⟩ : CacheState).meta.lookup ([65], [49]) :=
  ⟨(stale_fallback_no_write
      (fun s => if s = [65] then some ⟨[(1, [some 9])], none, none⟩ else none)
      (fun _ => true)
      (fun s => if s = [66] then some ⟨[(2, [some 8])], none, none⟩ else none)
      [[65], [66]] [65] (Or.inl (by decide))).1,
   ((stale_fallback_no_write
      (fun s => if s = [65] then some ⟨[(1, [some 9])], none, none⟩ else none)
      (fun _ => true)
      (fun s => if s = [66] then some ⟨[(2, [some 8])], none, none⟩ else none)
      [[65], [66]] [65] (Or.inl (by decide))).2.2
      ⟨[(([65], [49]), ⟨[(1, [some 9])], none, none⟩)], [(([65], [49]), (0, 1))]⟩
      [49] 9 (fun _ => none) (by decide)).2⟩

/-- **C10 (counterexample).** `cache.set` is indeed never called for the
stale-fallback symbol, but its *stored series* can still change during
the scan: cache files are keyed by the sanitized symbol (`/` replaced by
`-`, uppercased), so the successful fetch of `"A-B"` overwrites the file
shared with the stale-fallback symbol `"A/B"`, and `get("A/B")` returns
different data after the scan. -/
theorem stale_fallback_write_collision :
    (loadPriceData
        (fun s => if s = [65, 47, 66] then some ⟨[(1, [some 1])], none, none⟩
          else none)
        (fun _ => true)
        (fun s => if s = [65, 45, 66] then some ⟨[(2, [some 2])], none, none⟩
          else none)
        [[65, 47, 66], [65, 45, 66]]).2.2.2 =
      [([65, 45, 66], ⟨[(2, [some 2])], none, none⟩)] ∧
    [65, 47, 66] ∉ ((loadPriceData
        (fun s => if s = [65, 47, 66] then some ⟨[(1, [some 1])], none, none⟩
          else none)
        (fun _ => true)
        (fun s => if s = [65, 45, 66] then some ⟨[(2, [some 2])], none, none⟩
          else none)
        [[65, 47, 66], [65, 45, 66]]).2.2.2.map Prod.fst) ∧
    cacheGet (fun _ => none)
        (cacheSetMany
          ⟨[(([65, 45, 66], [49]), ⟨[(1, [some 1])], none, none⟩)],
           [(([65, 47, 66], [49]), (0, 1))]⟩ [49]
          [([65, 45, 66], ⟨[(2, [some 2])], none, none⟩)] 9)
        [65, 47, 66] [49] = some ⟨[(2, [some 2])], none, none⟩ ∧
    cacheGet (fun _ => none)
        (⟨[(([65, 45, 66], [49]), ⟨[(1, [some 1])], none, none⟩)],
          [(([65, 47, 66], [49]), (0, 1))]⟩ : CacheState)
        [65, 47, 66] [49] = some ⟨[(1, [some 1])], none, none⟩ := by
  refine ⟨by decide, by decide, by decide, by decide⟩

/-! ### ScanRunner (core/runners.py) -/

/-- A `ScanProgress` snapshot `(total, processed, skipped, errors)`. -/
structure ScanProgressM where
  total : Nat
  processed : Nat
  skipped : Nat
  errors : Nat
deriving DecidableEq, Repr

/-- A `ScanSummary`.  The wall-clock `duration_seconds` field is not
modelled. -/
structure ScanSummaryM where
  total : Nat
  processed : Nat
  skipped : Nat
  errors : Nat
  cacheHits : Nat
  cacheMisses : Nat
deriving DecidableEq, Repr

/-- The environment of one `_run_scan` execution.  `R`/`S` are the
`ScanResult`/`TradeSignal` payload types, `F` the fundamentals mapping,
`P` the params mapping; the runner treats all four opaquely.
Concurrency is made explicit: `workerSees s` tells whether the worker
running `_process(s)` observes the cancellation event at its check, and
`aggObserves n` tells whether the aggregation loop's `is_set()` check
after consuming `n` units observes it.  `onResultRaises i` (resp. the
progress flag) tells whether the `i`-th `on_result` invocation raises. -/
structure ScanEnv (R S F P : Type) where
  symbols : List PyStr
  params : P
  evalFn : PyStr → DataFrame → Option F → P → Except String (Option R × List S)
  provider : PyStr → Option F
  cg : PyStr → Option DataFrame
  st : PyStr → Bool
  fetched : PyStr → Option DataFrame
  workerSees : PyStr → Bool
  aggObserves : Nat → Bool
  onResultPresent : Bool
  onResultRaises : Nat → Bool
  onProgressPresent : Bool
  onProgressRaises : Nat → Bool

/-- Counters and logs accumulated by the aggregation loop. -/
structure AggState (R S : Type) where
  processed : Nat
  skipped : Nat
  errors : Nat
  resultCalls : Nat
  emitted : List (Option R × List S)
  progressLog : List ScanProgressM
deriving DecidableEq, Repr

/-- `ScanRunner._emit_progress`: when a callback is present it receives
the snapshot; an exception it raises is caught and logged, so the
`raises` flag has no effect on anything the runner keeps. -/
def emitProgressLog (present : Bool) (_raisesFlag : Bool)
    (log : List ScanProgressM) (snap : ScanProgressM) : List ScanProgressM :=
  if present then log ++ [snap] else log

/-- `_process(symbol)`: the unit of work submitted to the pool.  Checks
the cancellation event, looks the symbol up in the price map, obtains
fundamentals, and evaluates the scenario; a scenario exception is caught
and reported as `str(exc)`. -/
def processUnit {R S F P : Type} (env : ScanEnv R S F P)
    (priceMap : List (PyStr × DataFrame)) (s : PyStr) :
    Option R × List S × Option String :=
  if env.workerSees s then (none, [], some "cancelled")
  else
    match priceMap.lookup s with
    | none => (none, [], some "missing")
    | some df =>
      if df.isEmpty then (none, [], some "missing")
      else
        match env.evalFn s df (env.provider s) env.params with
        | .error msg => (none, [], some msg)
        | .ok (r, sigs) => (r, sigs, none)

/-- Increment `processed` and emit the per-unit progress snapshot. -/
def stepProgress {R S : Type} {F P : Type} (env : ScanEnv R S F P)
    (total : Nat) (st : AggState R S) : AggState R S :=
  { st with
    processed := st.processed + 1,
    progressLog := emitProgressLog env.onProgressPresent
      (env.onProgressRaises st.progressLog.length) st.progressLog
      ⟨total, st.processed + 1, st.skipped, st.errors⟩ }

/-- One iteration of the aggregation loop (`for future in
as_completed`): bucket the completed unit — `"missing"`/`"cancelled"`
count as skipped, any other error string as an error, a no-result
no-signal success as skipped, and a match invokes `on_result` (an
exception from it propagates, aborting the scan) — then increment
`processed` and emit progress. -/
def consumeUnit {R S F P : Type} (env : ScanEnv R S F P) (total : Nat)
    (st : AggState R S) (u : Option R × List S × Option String) :
    Except String (AggState R S) :=
  match u with
  | (r, sigs, err) =>
    match err with
    | some e =>
      if e = "missing" then .ok (stepProgress env total {st with skipped := st.skipped + 1})
      else if e = "cancelled" then
        .ok (stepProgress env total {st with skipped := st.skipped + 1})
      else .ok (stepProgress env total {st with errors := st.errors + 1})
    | none =>
      if r.isNone && sigs.isEmpty then
        .ok (stepProgress env total {st with skipped := st.skipped + 1})
      else if env.onResultPresent then
        if env.onResultRaises st.resultCalls then .error "on_result callback raised"
        else .ok (stepProgress env total
          { st with
              resultCalls := st.resultCalls + 1
              emitted := st.emitted ++ [(r, sigs)] })
      else .ok (stepProgress env total st)

/-- The aggregation loop over the completion order: consume each
completed unit, and `break` out when the cancellation event is observed
after a unit.  Returns the final state and the completed-but-unconsumed
suffix of the completion order. -/
def aggLoop {R S F P : Type} (env : ScanEnv R S F P)
    (priceMap : List (PyStr × DataFrame)) (total : Nat) :
    List PyStr → AggState R S → Except String (AggState R S × List PyStr)
  | [], st => .ok (st, [])
  | s :: rest, st =>
    match consumeUnit env total st (processUnit env priceMap s) with
    | .error e => .error e
    | .ok st2 =>
      if env.aggObserves st2.processed then .ok (st2, rest)
      else aggLoop env priceMap total rest st2

/-- The aggregation state right after the initial progress snapshot
`ScanProgress(total, 0, 0, 0)` is emitted. -/
def initAggState {R S F P : Type} (env : ScanEnv R S F P) : AggState R S :=
  ⟨0, 0, 0, 0, [],
    emitProgressLog env.onProgressPresent (env.onProgressRaises 0) []
      ⟨env.symbols.length, 0, 0, 0⟩⟩

/-- `ScanRunner._run_scan` with the pool's completion order `order` (all
units are submitted up front; `as_completed` yields them in some
permutation of the submitted symbols).  Emits the initial progress
snapshot, resolves price data, aggregates, and returns the final
counters together with the unconsumed suffix and the cache hit/miss
counts. -/
def runScanCore {R S F P : Type} (env : ScanEnv R S F P)
    (order : List PyStr) :
    Except String (AggState R S × List PyStr × Nat × Nat) :=
  match loadPriceData env.cg env.st env.fetched env.symbols with
  | (pm, hits, misses, _sets) =>
    match aggLoop env pm env.symbols.length order (initAggState env) with
    | .error e => .error e
    | .ok (st, rem) => .ok (st, rem, hits, misses)

/-- `_run_scan`'s returned `ScanSummary` (or the propagated `on_result`
exception). -/
def runScan {R S F P : Type} (env : ScanEnv R S F P) (order : List PyStr) :
    Except String ScanSummaryM :=
  match runScanCore env order with
  | .error e => .error e
  | .ok (st, _, hits, misses) =>
    .ok ⟨env.symbols.length, st.processed, st.skipped, st.errors, hits, misses⟩

/-! ### Runner start / stop surface (C4) -/

/-- The identifiers registered in `SCENARIO_REGISTRY`
(`core/scans/__init__.py`, each class's `id`). -/
def registryIds : List String :=
  ["classic_oversold", "mean_reversion_bb", "stochastic_oversold",
   "floor_consolidation_universal", "floor_consolidation_quality",
   "momentum_breakout", "volume_confirmed_breakout", "golden_cross",
   "volatility_squeeze", "lti_compounder"]

/-- A `strategy` argument to `start`: a `BaseScenario` instance passed
directly, or a string identifier to be resolved in the registry. -/
inductive Strategy where
  | fromInstance
  | identifier (id : String)
deriving DecidableEq, Repr

/-- The runner's scan-slot state: the configured worker-pool width and
whether an active (not yet done) scan future exists. -/
structure RunnerState where
  maxWorkers : Int
  busy : Bool
deriving DecidableEq, Repr

/-- `ScanRunner.__init__`: rejects a non-positive `max_workers` with
`ValueError` before a runner exists; otherwise the runner starts idle. -/
def initRunner (maxWorkers : Int) : Except String RunnerState :=
  if maxWorkers ≤ 0 then .error "max_workers must be positive"
  else .ok ⟨maxWorkers, false⟩

/-- `ScanRunner._resolve_scenario`: an instance passes through; an
identifier is looked up in `SCENARIO_REGISTRY`, raising `ValueError`
when unknown. -/
def resolveScenario : Strategy → Except String Unit
  | .fromInstance => .ok ()
  | .identifier id =>
    if id ∈ registryIds then .ok ()
    else .error "Unknown strategy identifier"

/-- `ScanRunner.start`: resolve the strategy and normalize the symbols
(both before taking the lock), then fail if a scan is already running,
else mark the slot busy and submit `_run_scan` with the normalized list.
Every error returns before anything is submitted: no counters exist yet
and no callback has been invoked. -/
def startRunner (st : RunnerState) (strategy : Strategy)
    (symbols : List PyStr) : Except String (RunnerState × List PyStr) :=
  match resolveScenario strategy with
  | .error e => .error e
  | .ok _ =>
    let normalized := normaliseSymbols symbols
    if st.busy then .error "A scan is already running"
    else .ok ({st with busy := true}, normalized)

/-! ### Aggregation-loop lemmas (C1, C2, C3) -/

theorem consumeUnit_ok_spec {R S F P : Type} (env : ScanEnv R S F P)
    (total : Nat) (st st2 : AggState R S) (r : Option R) (sigs : List S)
    (err : Option String)
    (hok : consumeUnit env total st (r, sigs, err) = .ok st2) :
    st2.processed = st.processed + 1 ∧
    (env.onResultPresent = true →
      st2.skipped + st2.errors + st2.resultCalls =
        st.skipped + st.errors + st.resultCalls + 1) ∧
    (st.resultCalls = st.emitted.length →
      st2.resultCalls = st2.emitted.length) := by
  unfold consumeUnit at hok
  dsimp only at hok
  cases err with
  | some e =>
    dsimp only at hok
    by_cases h1 : e = "missing"
    · rw [if_pos h1] at hok
      injection hok with h2
      subst h2
      refine ⟨rfl, fun _ => ?_, fun hrc => ?_⟩
      · show st.skipped + 1 + st.errors + st.resultCalls =
          st.skipped + st.errors + st.resultCalls + 1
        omega
      · exact hrc
    · rw [if_neg h1] at hok
      by_cases h2 : e = "cancelled"
      · rw [if_pos h2] at hok
        injection hok with h3
        subst h3
        refine ⟨rfl, fun _ => ?_, fun hrc => ?_⟩
        · show st.skipped + 1 + st.errors + st.resultCalls =
            st.skipped + st.errors + st.resultCalls + 1
          omega
        · exact hrc
      · rw [if_neg h2] at hok
        injection hok with h3
        subst h3
        refine ⟨rfl, fun _ => ?_, fun hrc => ?_⟩
        · show st.skipped + (st.errors + 1) + st.resultCalls =
            st.skipped + st.errors + st.resultCalls + 1
          omega
        · exact hrc
  | none =>
    dsimp only at hok
    by_cases h1 : (r.isNone && sigs.isEmpty) = true
    · rw [if_pos h1] at hok
      injection hok with h2
      subst h2
      refine ⟨rfl, fun _ => ?_, fun hrc => ?_⟩
      · show st.skipped + 1 + st.errors + st.resultCalls =
          st.skipped + st.errors + st.resultCalls + 1
        omega
      · exact hrc
    · rw [if_neg h1] at hok
      by_cases h2 : env.onResultPresent = true
      · rw [if_pos h2] at hok
        by_cases h3 : env.onResultRaises st.resultCalls = true
        · rw [if_pos h3] at hok
          exact Except.noConfusion hok
        · rw [if_neg h3] at hok
          injection hok with h4
          subst h4
          refine ⟨rfl, fun _ => ?_, fun hrc => ?_⟩
          · show st.skipped + st.errors + (st.resultCalls + 1) =
              st.skipped + st.errors + st.resultCalls + 1
            omega
          · show st.resultCalls + 1 = (st.emitted ++ [(r, sigs)]).length
            rw [List.length_append, hrc]
            rfl
      · rw [if_neg h2] at hok
        injection hok with h3
        subst h3
        exact ⟨rfl, fun hpres => absurd hpres h2, fun hrc => hrc⟩

theorem consumeUnit_isOk {R S F P : Type} (env : ScanEnv R S F P)
    (total : Nat) (st : AggState R S) (r : Option R) (sigs : List S)
    (err : Option String)
    (hnr : env.onResultRaises st.resultCalls = false) :
    ∃ st2, consumeUnit env total st (r, sigs, err) = .ok st2 := by
  unfold consumeUnit
  dsimp only
  cases err with
  | some e =>
    dsimp only
    by_cases h1 : e = "missing"
    · rw [if_pos h1]; exact ⟨_, rfl⟩
    · rw [if_neg h1]
      by_cases h2 : e = "cancelled"
      · rw [if_pos h2]; exact ⟨_, rfl⟩
      · rw [if_neg h2]; exact ⟨_, rfl⟩
  | none =>
    dsimp only
    by_cases h1 : (r.isNone && sigs.isEmpty) = true
    · rw [if_pos h1]; exact ⟨_, rfl⟩
    · rw [if_neg h1]
      by_cases h2 : env.onResultPresent = true
      · rw [if_pos h2, hnr]
        exact ⟨_, by rw [if_neg (by simp)]⟩
      · rw [if_neg h2]; exact ⟨_, rfl⟩

theorem aggLoop_no_cancel {R S F P : Type} (env : ScanEnv R S F P)
    (pm : List (PyStr × DataFrame)) (total : Nat)
    (hobs : ∀ n, env.aggObserves n = false)
    (hnr : ∀ i, env.onResultRaises i = false)
    (hpres : env.onResultPresent = true) :
    ∀ (order : List PyStr) (st : AggState R S),
      st.resultCalls = st.emitted.length →
      ∃ st2, aggLoop env pm total order st = .ok (st2, []) ∧
        st2.processed = st.processed + order.length ∧
        st2.skipped + st2.errors + st2.resultCalls =
          st.skipped + st.errors + st.resultCalls + order.length ∧
        st2.resultCalls = st2.emitted.length := by
  intro order
  induction order with
  | nil =>
    intro st hrc
    exact ⟨st, rfl, by simp, by simp, hrc⟩
  | cons s rest ih =>
    intro st hrc
    rcases hu : processUnit env pm s with ⟨r, sigs, err⟩
    obtain ⟨stM, hstM⟩ := consumeUnit_isOk env total st r sigs err (hnr st.resultCalls)
    obtain ⟨hp1, hp2, hp3⟩ := consumeUnit_ok_spec env total st stM r sigs err hstM
    obtain ⟨st2, hloop, hq1, hq2, hq3⟩ := ih stM (hp3 hrc)
    refine ⟨st2, ?_, ?_, ?_, hq3⟩
    · rw [aggLoop, hu, hstM]
      dsimp only
      rw [hobs stM.processed]
      simp only [Bool.false_eq_true, if_false]
      exact hloop
    · rw [hq1, hp1, List.length_cons]
      omega
    · rw [hq2, hp2 hpres, List.length_cons]
      omega

theorem aggLoop_processed {R S F P : Type} (env : ScanEnv R S F P)
    (pm : List (PyStr × DataFrame)) (total : Nat) :
    ∀ (order : List PyStr) (st st2 : AggState R S) (rem : List PyStr),
      aggLoop env pm total order st = .ok (st2, rem) →
      st2.processed + rem.length = st.processed + order.length ∧
      ((∀ n, env.aggObserves n = false) → rem = []) := by
  intro order
  induction order with
  | nil =>
    intro st st2 rem hok
    rw [aggLoop] at hok
    injection hok with h1
    injection h1 with h2 h3
    subst h2
    subst h3
    exact ⟨by omega, fun _ => rfl⟩
  | cons s rest ih =>
    intro st st2 rem hok
    rw [aggLoop] at hok
    rcases hu : processUnit env pm s with ⟨r, sigs, err⟩
    rw [hu] at hok
    cases hcu : consumeUnit env total st (r, sigs, err) with
    | error e =>
      rw [hcu] at hok
      exact Except.noConfusion hok
    | ok stM =>
      rw [hcu] at hok
      dsimp only at hok
      obtain ⟨hp1, _, _⟩ := consumeUnit_ok_spec env total st stM r sigs err hcu
      by_cases ho : env.aggObserves stM.processed = true
      · rw [if_pos ho] at hok
        injection hok with h1
        injection h1 with h2 h3
        subst h2
        subst h3
        refine ⟨by rw [hp1, List.length_cons]; omega, fun hobs => ?_⟩
        rw [hobs stM.processed] at ho
        exact absurd ho (by simp)
      · rw [if_neg ho] at hok
        obtain ⟨hq1, hq2⟩ := ih stM st2 rem hok
        exact ⟨by rw [hq1, hp1, List.length_cons]; omega, hq2⟩

theorem runScanCore_ok_of_aggLoop {R S F P : Type} (env : ScanEnv R S F P)
    (order : List PyStr) (pm : List (PyStr × DataFrame))
    (hits misses : Nat) (sets : List (PyStr × DataFrame))
    (st : AggState R S) (rem : List PyStr)
    (hload : loadPriceData env.cg env.st env.fetched env.symbols =
      (pm, hits, misses, sets))
    (hagg : aggLoop env pm env.symbols.length order (initAggState env) =
      .ok (st, rem)) :
    runScanCore env order = .ok (st, rem, hits, misses) := by
  unfold runScanCore
  rw [hload]
  dsimp only
  rw [hagg]

/-- **C1.** For every scan over a normalized symbol list of length `N`
with no cancellation (`stop()` never called, so neither the workers nor
the aggregation loop ever observe the cancel event) and well-behaved
callbacks, the scan completes with `processed = N`, and
`skipped + errors + (number of on_result invocations) = N`: every symbol
lands in exactly one bucket.  The completion order is an arbitrary
permutation of the submitted symbols. -/
theorem scan_accounting {R S F P : Type} (env : ScanEnv R S F P)
    (raw : List PyStr) (order : List PyStr)
    (_hsym : env.symbols = normaliseSymbols raw)
    (hperm : order.Perm env.symbols)
    (_hws : ∀ s, env.workerSees s = false)
    (hobs : ∀ n, env.aggObserves n = false)
    (hpres : env.onResultPresent = true)
    (hnr : ∀ i, env.onResultRaises i = false) :
    ∃ (st : AggState R S) (hits misses : Nat),
      runScanCore env order = .ok (st, [], hits, misses) ∧
      runScan env order =
        .ok ⟨env.symbols.length, st.processed, st.skipped, st.errors,
          hits, misses⟩ ∧
      st.processed = env.symbols.length ∧
      st.skipped + st.errors + st.resultCalls = env.symbols.length ∧
      st.resultCalls = st.emitted.length := by
  rcases hload : loadPriceData env.cg env.st env.fetched env.symbols with
    ⟨pm, hits, misses, sets⟩
  obtain ⟨st2, hloop, hq1, hq2, hq3⟩ :=
    aggLoop_no_cancel env pm env.symbols.length hobs hnr hpres order
      (initAggState env) rfl
  have hcore := runScanCore_ok_of_aggLoop env order pm hits misses sets st2 []
    hload hloop
  refine ⟨st2, hits, misses, hcore, ?_, ?_, ?_, hq3⟩
  · unfold runScan
    rw [hcore]
  · rw [hq1]
    show 0 + order.length = env.symbols.length
    rw [hperm.length_eq]
    omega
  · rw [hq2]
    show 0 + 0 + 0 + order.length = env.symbols.length
    rw [hperm.length_eq]
    omega

/-- Witness environment for the accounting claim: one symbol `"A"`
(normalized from `"a"`), served fresh from cache, whose scenario
evaluation returns a result. -/
def envAcc : ScanEnv Nat Nat Unit Unit where
  symbols := [[65]]
  params := ()
  evalFn := fun _ _ _ _ => .ok (some 1, [])
  provider := fun _ => none
  cg := fun _ => some ⟨[(1, [some 1])], none, none⟩
  st := fun _ => false
  fetched := fun _ => none
  workerSees := fun _ => false
  aggObserves := fun _ => false
  onResultPresent := true
  onResultRaises := fun _ => false
  onProgressPresent := true
  onProgressRaises := fun _ => false

/-- Witness for the accounting claim at the concrete one-symbol scan. -/
theorem scan_accounting_witness :
    envAcc.symbols = normaliseSymbols [[97]] ∧
    ([[65]] : List PyStr).Perm envAcc.symbols ∧
    ∃ (st : AggState Nat Nat) (hits misses : Nat),
      runScanCore envAcc [[65]] = .ok (st, [], hits, misses) ∧
      runScan envAcc [[65]] =
        .ok ⟨envAcc.symbols.length, st.processed, st.skipped, st.errors,
          hits, misses⟩ ∧
      st.processed = envAcc.symbols.length ∧
      st.skipped + st.errors + st.resultCalls = envAcc.symbols.length ∧
      st.resultCalls = st.emitted.length :=
  ⟨by decide, by decide,
    scan_accounting envAcc [[97]] [[65]] (by decide) (by decide)
      (fun _ => rfl) (fun _ => rfl) rfl (fun _ => rfl)⟩

/-- **C2 (amended).** All evaluation units are submitted to the worker
pool up front (the completion order ranges over every submitted symbol,
each of which runs to completion and yields an outcome); when
cancellation is observed after a completed unit, the aggregation loop
stops consuming further completed units, and units not consumed are not
counted.  Hence `processed + (completed but unconsumed) = total`, and
when cancellation is never observed nothing is left unconsumed. -/
theorem cancellation_accounting {R S F P : Type} (env : ScanEnv R S F P)
    (order : List PyStr) (st : AggState R S) (rem : List PyStr)
    (hits misses : Nat) (hperm : order.Perm env.symbols)
    (hok : runScanCore env order = .ok (st, rem, hits, misses)) :
    st.processed + rem.length = env.symbols.length ∧
    ((∀ n, env.aggObserves n = false) → rem = []) := by
  rcases hload : loadPriceData env.cg env.st env.fetched env.symbols with
    ⟨pm, hits2, misses2, sets⟩
  unfold runScanCore at hok
  rw [hload] at hok
  dsimp only at hok
  cases hagg : aggLoop env pm env.symbols.length order (initAggState env) with
  | error e =>
    rw [hagg] at hok
    exact Except.noConfusion hok
  | ok pr =>
    obtain ⟨stA, remA⟩ := pr
    rw [hagg] at hok
    dsimp only at hok
    injection hok with h1
    injection h1 with ha h1
    injection h1 with hb h1
    obtain ⟨hp, hq⟩ := aggLoop_processed env pm env.symbols.length order
      (initAggState env) stA remA hagg
    rw [← ha, ← hb]
    refine ⟨?_, hq⟩
    have hlen := hperm.length_eq
    have hinit : (initAggState env).processed = 0 := rfl
    rw [hinit] at hp
    omega

/-- Counterexample environment: two fresh cache-hit symbols whose
scenarios both return results, with the cancellation event observed by
the aggregation loop right after the first unit is consumed (the workers
themselves never see it, so both dispatched units run to completion). -/
def envCancel : ScanEnv Nat Nat Unit Unit where
  symbols := [[65], [66]]
  params := ()
  evalFn := fun _ _ _ _ => .ok (some 1, [])
  provider := fun _ => none
  cg := fun _ => some ⟨[(1, [some 1])], none, none⟩
  st := fun _ => false
  fetched := fun _ => none
  workerSees := fun _ => false
  aggObserves := fun n => decide (1 ≤ n)
  onResultPresent := true
  onResultRaises := fun _ => false
  onProgressPresent := true
  onProgressRaises := fun _ => false

/-- **C2 (counterexample).** Both units are dispatched up front and both
run to completion (the second unit's completed outcome is the unconsumed
`"B"`), yet the summary counts only the first: `processed = 1` with
`total = 2`, although zero units were "never dispatched" — so
`processed + (units never dispatched) ≠ total`, and a dispatched,
completed unit was not counted. -/
theorem cancellation_counterexample :
    runScanCore envCancel [[65], [66]] =
      .ok (⟨1, 0, 0, 1, [(some 1, [])],
        [⟨2, 0, 0, 0⟩, ⟨2, 1, 0, 0⟩]⟩, [[66]], 2, 0) ∧
    runScan envCancel [[65], [66]] = .ok ⟨2, 1, 0, 0, 2, 0⟩ ∧
    1 + (0 : Nat) ≠ 2 :=
  ⟨rfl, rfl, by omega⟩

/-- Witness for the amended cancellation claim, at the concrete
cancelled run: `processed + unconsumed = 1 + 1 = 2 = total`. -/
theorem cancellation_accounting_witness :
    ([[65], [66]] : List PyStr).Perm envCancel.symbols ∧
    ((⟨1, 0, 0, 1, [(some 1, [])],
        [⟨2, 0, 0, 0⟩, ⟨2, 1, 0, 0⟩]⟩ : AggState Nat Nat).processed +
      ([[66]] : List PyStr).length = envCancel.symbols.length ∧
      ((∀ n, envCancel.aggObserves n = false) → ([[66]] : List PyStr) = [])) :=
  ⟨by decide,
    cancellation_accounting envCancel [[65], [66]]
      ⟨1, 0, 0, 1, [(some 1, [])], [⟨2, 0, 0, 0⟩, ⟨2, 1, 0, 0⟩]⟩
      [[66]] 2 0 (by decide) rfl⟩

/-! ### Callback exception containment (C3) -/

theorem consumeUnit_progress_indep {R S F P : Type} (env : ScanEnv R S F P)
    (p : Nat → Bool) (total : Nat) (st : AggState R S) (r : Option R)
    (sigs : List S) (err : Option String) :
    consumeUnit {env with onProgressRaises := p} total st (r, sigs, err) =
      consumeUnit env total st (r, sigs, err) := by
  have hstep : ∀ st1 : AggState R S,
      stepProgress {env with onProgressRaises := p} total st1 =
        stepProgress env total st1 := fun _ => rfl
  unfold consumeUnit
  dsimp only
  cases err with
  | some e => simp only [hstep]
  | none => simp only [hstep]

theorem aggLoop_progress_indep {R S F P : Type} (env : ScanEnv R S F P)
    (p : Nat → Bool) (pm : List (PyStr × DataFrame)) (total : Nat) :
    ∀ (order : List PyStr) (st : AggState R S),
      aggLoop {env with onProgressRaises := p} pm total order st =
        aggLoop env pm total order st := by
  intro order
  induction order with
  | nil => intro st; rfl
  | cons s rest ih =>
    intro st
    rw [aggLoop, aggLoop]
    have hpu : processUnit {env with onProgressRaises := p} pm s =
        processUnit env pm s := rfl
    rw [hpu]
    rcases hu : processUnit env pm s with ⟨r, sigs, err⟩
    rw [consumeUnit_progress_indep]
    cases consumeUnit env total st (r, sigs, err) with
    | error e => rfl
    | ok st2 =>
      dsimp only
      by_cases ho : env.aggObserves st2.processed = true
      · rw [if_pos ho, if_pos ho]
      · rw [if_neg ho, if_neg ho, ih]

theorem runScanCore_progress_indep {R S F P : Type} (env : ScanEnv R S F P)
    (p : Nat → Bool) (order : List PyStr) :
    runScanCore {env with onProgressRaises := p} order = runScanCore env order := by
  unfold runScanCore
  dsimp only
  rcases hload : loadPriceData env.cg env.st env.fetched env.symbols with
    ⟨pm, hits, misses, sets⟩
  dsimp only
  have hinit : initAggState {env with onProgressRaises := p} = initAggState env := rfl
  rw [hinit, aggLoop_progress_indep]

theorem consumeUnit_noraise_of_ok {R S F P : Type} (env : ScanEnv R S F P)
    (total : Nat) (st st2 : AggState R S) (r : Option R) (sigs : List S)
    (err : Option String)
    (hok : consumeUnit env total st (r, sigs, err) = .ok st2) :
    consumeUnit {env with onResultRaises := fun _ => false} total st
      (r, sigs, err) = .ok st2 := by
  have hstep : ∀ st1 : AggState R S,
      stepProgress {env with onResultRaises := fun _ => false} total st1 =
        stepProgress env total st1 := fun _ => rfl
  unfold consumeUnit at hok ⊢
  dsimp only at hok ⊢
  cases err with
  | some e =>
    dsimp only at hok ⊢
    simp only [hstep]
    exact hok
  | none =>
    dsimp only at hok ⊢
    by_cases h1 : (r.isNone && sigs.isEmpty) = true
    · rw [if_pos h1] at hok ⊢
      simp only [hstep]
      exact hok
    · rw [if_neg h1] at hok ⊢
      by_cases h2 : env.onResultPresent = true
      · rw [if_pos h2] at hok ⊢
        by_cases h3 : env.onResultRaises st.resultCalls = true
        · rw [if_pos h3] at hok
          exact Except.noConfusion hok
        · rw [if_neg h3] at hok
          rw [if_neg (by simp)]
          simp only [hstep]
          exact hok
      · rw [if_neg h2] at hok ⊢
        simp only [hstep]
        exact hok

theorem aggLoop_noraise_of_ok {R S F P : Type} (env : ScanEnv R S F P)
    (pm : List (PyStr × DataFrame)) (total : Nat) :
    ∀ (order : List PyStr) (st : AggState R S)
      (out : AggState R S × List PyStr),
      aggLoop env pm total order st = .ok out →
      aggLoop {env with onResultRaises := fun _ => false} pm total order st =
        .ok out := by
  intro order
  induction order with
  | nil => intro st out hok; exact hok
  | cons s rest ih =>
    intro st out hok
    rw [aggLoop] at hok ⊢
    have hpu : processUnit {env with onResultRaises := fun _ => false} pm s =
        processUnit env pm s := rfl
    rw [hpu]
    rcases hu : processUnit env pm s with ⟨r, sigs, err⟩
    rw [hu] at hok
    cases hcu : consumeUnit env total st (r, sigs, err) with
    | error e =>
      rw [hcu] at hok
      exact Except.noConfusion hok
    | ok stM =>
      rw [hcu] at hok
      rw [consumeUnit_noraise_of_ok env total st stM r sigs err hcu]
      dsimp only at hok ⊢
      by_cases ho : env.aggObserves stM.processed = true
      · rw [if_pos ho] at hok ⊢
        exact hok
      · rw [if_neg ho] at hok ⊢
        exact ih stM out hok

theorem runScanCore_noraise_of_ok {R S F P : Type} (env : ScanEnv R S F P)
    (order : List PyStr) (res : AggState R S × List PyStr × Nat × Nat)
    (hok : runScanCore env order = .ok res) :
    runScanCore {env with onResultRaises := fun _ => false} order = .ok res := by
  rcases hload : loadPriceData env.cg env.st env.fetched env.symbols with
    ⟨pm, hits, misses, sets⟩
  unfold runScanCore at hok ⊢
  dsimp only at hok ⊢
  rw [hload] at hok ⊢
  dsimp only at hok ⊢
  have hinit : initAggState {env with onResultRaises := fun _ => false} =
      initAggState env := rfl
  rw [hinit]
  cases hagg : aggLoop env pm env.symbols.length order (initAggState env) with
  | error e =>
    rw [hagg] at hok
    exact Except.noConfusion hok
  | ok pr =>
    rw [hagg] at hok
    rw [aggLoop_noraise_of_ok env pm env.symbols.length order
      (initAggState env) pr hagg]
    exact hok

/-- **C3 (amended).** Exceptions raised by `on_progress` are caught by
`_emit_progress` and have no effect whatsoever on the scan: the run is
identical under any progress-raise schedule.  Exceptions raised by
`on_result` are NOT caught: whenever the scan does complete, no invoked
`on_result` call raised, and the run coincides with the never-raising
run — a raising `on_result` instead aborts the scan with the propagated
exception (see the counterexample). -/
theorem callback_exception_policy {R S F P : Type} :
    (∀ (env : ScanEnv R S F P) (p : Nat → Bool) (order : List PyStr),
      runScanCore {env with onProgressRaises := p} order =
        runScanCore env order) ∧
    (∀ (env : ScanEnv R S F P) (order : List PyStr)
      (res : AggState R S × List PyStr × Nat × Nat),
      runScanCore env order = .ok res →
      runScanCore {env with onResultRaises := fun _ => false} order = .ok res) :=
  ⟨fun env p order => runScanCore_progress_indep env p order,
   fun env order res hok => runScanCore_noraise_of_ok env order res hok⟩

/-- Counterexample environment: one matching symbol whose `on_result`
invocation raises. -/
def envCbRaise : ScanEnv Nat Nat Unit Unit where
  symbols := [[65]]
  params := ()
  evalFn := fun _ _ _ _ => .ok (some 1, [])
  provider := fun _ => none
  cg := fun _ => some ⟨[(1, [some 1])], none, none⟩
  st := fun _ => false
  fetched := fun _ => none
  workerSees := fun _ => false
  aggObserves := fun _ => false
  onResultPresent := true
  onResultRaises := fun _ => true
  onProgressPresent := true
  onProgressRaises := fun _ => false

/-- **C3 (counterexample).** With `on_result` raising on its first
invocation, the exception propagates out of the aggregation loop and the
scan produces no summary at all, while the identical scan with a
well-behaved callback completes normally — so a raising `on_result` is
neither caught nor counter-preserving, contrary to the claim. -/
theorem callback_exception_counterexample :
    runScan envCbRaise [[65]] = .error "on_result callback raised" ∧
    runScan {envCbRaise with onResultRaises := fun _ => false} [[65]] =
      .ok ⟨1, 1, 0, 0, 1, 0⟩ :=
  ⟨rfl, rfl⟩

/-- Witness for the amended callback policy at a concrete environment:
the run is invariant under a progress-raise schedule, and the completed
run equals the never-raising run. -/
theorem callback_exception_policy_witness :
    runScanCore {envAcc with onProgressRaises := fun _ => true} [[65]] =
      runScanCore envAcc [[65]] ∧
    runScanCore {envAcc with onResultRaises := fun _ => false} [[65]] =
      .ok (⟨1, 0, 0, 1, [(some 1, [])], [⟨1, 0, 0, 0⟩, ⟨1, 1, 0, 0⟩]⟩,
        [], 1, 0) :=
  ⟨(callback_exception_policy.1 envAcc (fun _ => true) [[65]]),
   (callback_exception_policy.2 envAcc [[65]]
      (⟨1, 0, 0, 1, [(some 1, [])], [⟨1, 0, 0, 0⟩, ⟨1, 1, 0, 0⟩]⟩, [], 1, 0)
      rfl)⟩

/-! ### start() error surface (C4) -/

/-- **C4 (amended).** The concurrency-width check lives in the
constructor: `ScanRunner(...)` raises exactly when `max_workers ≤ 0`, so
no runner with an invalid width ever exists.  `start()` itself fails
fast, synchronously, in exactly two cases — an unknown strategy
identifier and a scan already running — and in each case it returns
before anything is submitted (no counters touched, no callbacks
invoked); an `ok` return carries the normalized symbol list that was
submitted. -/
theorem start_error_cases (mw : Int) (st : RunnerState) (strategy : Strategy)
    (symbols : List PyStr) :
    ((∃ e, initRunner mw = Except.error e) ↔ mw ≤ 0) ∧
    ((∃ e, startRunner st strategy symbols = Except.error e) ↔
      ((∃ i, strategy = Strategy.identifier i ∧ i ∉ registryIds) ∨
        st.busy = true)) ∧
    (∀ st2 norm, startRunner st strategy symbols = Except.ok (st2, norm) →
      norm = normaliseSymbols symbols ∧ st2.busy = true ∧
        st2.maxWorkers = st.maxWorkers) := by
  refine ⟨?_, ?_, ?_⟩
  · unfold initRunner
    by_cases h : mw ≤ 0
    · rw [if_pos h]
      exact ⟨fun _ => h, fun _ => ⟨_, rfl⟩⟩
    · rw [if_neg h]
      exact ⟨fun ⟨e, he⟩ => Except.noConfusion he, fun hc => absurd hc h⟩
  · unfold startRunner resolveScenario
    cases strategy with
    | fromInstance =>
      dsimp only
      by_cases hb : st.busy = true
      · rw [if_pos hb]
        refine ⟨fun _ => Or.inr hb, fun _ => ⟨_, rfl⟩⟩
      · rw [if_neg hb]
        refine ⟨fun ⟨e, he⟩ => Except.noConfusion he, fun hc => ?_⟩
        rcases hc with ⟨i, hi, _⟩ | hc
        · exact Strategy.noConfusion hi
        · exact absurd hc hb
    | identifier i =>
      dsimp only
      by_cases hr : i ∈ registryIds
      · rw [if_pos hr]
        dsimp only
        by_cases hb : st.busy = true
        · rw [if_pos hb]
          exact ⟨fun _ => Or.inr hb, fun _ => ⟨_, rfl⟩⟩
        · rw [if_neg hb]
          refine ⟨fun ⟨e, he⟩ => Except.noConfusion he, fun hc => ?_⟩
          rcases hc with ⟨j, hj, hjr⟩ | hc
          · injection hj with hj2
            subst hj2
            exact absurd hr hjr
          · exact absurd hc hb
      · rw [if_neg hr]
        exact ⟨fun _ => Or.inl ⟨i, rfl, hr⟩, fun _ => ⟨_, rfl⟩⟩
  · intro st2 norm hok
    unfold startRunner at hok
    cases hres : resolveScenario strategy with
    | error e =>
      rw [hres] at hok
      exact Except.noConfusion hok
    | ok u =>
      rw [hres] at hok
      dsimp only at hok
      by_cases hb : st.busy = true
      · rw [if_pos hb] at hok
        exact Except.noConfusion hok
      · rw [if_neg hb] at hok
        injection hok with h1
        injection h1 with h2 h3
        subst h3
        rw [← h2]
        exact ⟨rfl, rfl, rfl⟩

/-- **C4 (counterexample).** `start()` does not check the concurrency
width at all: on a runner state with `max_workers = 0` (never reachable
through the constructor, which is where the width error is actually
raised) and a registered strategy, `start()` succeeds — so "start()
fails ... exactly in the three cases including width ≤ 0" is false:
the width case belongs to `__init__`, not `start()`. -/
theorem start_width_counterexample :
    (0 : Int) ≤ 0 ∧
    startRunner ⟨0, false⟩ (Strategy.identifier "golden_cross") [] =
      Except.ok (⟨0, true⟩, []) ∧
    initRunner 0 = Except.error "max_workers must be positive" := by
  refine ⟨le_refl 0, ?_, rfl⟩
  rfl

/-- Witness for the amended start contract at concrete inputs: a
negative width fails at construction; an unknown identifier and a busy
runner fail at `start()`; a valid start on an idle runner returns the
normalized symbols. -/
theorem start_error_cases_witness :
    ((∃ e, initRunner (-2) = Except.error e) ↔ (-2 : Int) ≤ 0) ∧
    ((∃ e, startRunner ⟨4, false⟩ (Strategy.identifier "bogus") [[97]] =
        Except.error e) ↔
      ((∃ i, Strategy.identifier "bogus" = Strategy.identifier i ∧
        i ∉ registryIds) ∨ (⟨4, false⟩ : RunnerState).busy = true)) ∧
    (∀ st2 norm,
      startRunner ⟨4, false⟩ (Strategy.identifier "bogus") [[97]] =
        Except.ok (st2, norm) →
      norm = normaliseSymbols [[97]] ∧ st2.busy = true ∧
        st2.maxWorkers = (⟨4, false⟩ : RunnerState).maxWorkers) :=
  ⟨(start_error_cases (-2) ⟨4, false⟩ (Strategy.identifier "bogus") [[97]]).1,
   (start_error_cases (-2) ⟨4, false⟩ (Strategy.identifier "bogus") [[97]]).2.1,
   (start_error_cases (-2) ⟨4, false⟩ (Strategy.identifier "bogus") [[97]]).2.2⟩

end Rectifex
